import Mathlib

/-!
Shallow embedding of `src/main.py` (a one-way periodic folder replicator)
and proofs about it.

The filesystem is modelled as a finite rose tree of named nodes.  A file
carries its size and last-modification timestamp (abstract `Nat` values, only
compared for exact equality, exactly as the code compares `os.path.getmtime`
and `os.path.getsize` results) together with a `readable` flag meaning that
`os.stat` on the path succeeds.  When `readable` is `false`, `os.path.exists`
and `os.path.isdir` report `false` (both swallow `OSError`), while
`os.path.getmtime` / `os.path.getsize` raise.  Directories are always
statable; newly created directories get abstract attributes `(0, 0)` (their
creation timestamps are never compared by the code).  Children are kept in
`os.listdir` order; directories created by the code are appended at the end.

Fallible filesystem calls are modelled by `Except String`, the error string
naming the Python exception raised.  An `Except.error` escaping a function
models an uncaught Python exception propagating out of it; exceptions the
code catches (`try`/`except` blocks) are matched on locally and turned into
log messages, as the code does.  Log messages are modelled by the structured
type `Outcome`, one constructor per `messages_for_log.append` site of the
source; each carries the relative path(s) the printed f-string interpolates
(the absolute paths of the messages are the tree roots joined with these
relative paths) and, for error messages, the exception text.
-/

/-- One component of a filesystem path. -/
abbrev Name := String

/-- A path relative to a tree root: the list of its components
(`os.path.relpath` of an item against the root). -/
abbrev RPath := List Name

/-- A filesystem node: a directory with attributes and named children in
`os.listdir` order, or a file with attributes and a statability flag. -/
inductive Node where
  | dir (mtime size : Nat) (children : List (Name × Node))
  | file (mtime size : Nat) (readable : Bool)
deriving Repr

/-- Whether a node is a directory. -/
def Node.isDirB : Node → Bool
  | .dir .. => true
  | .file .. => false

/-- The last-modification attribute a successful `os.stat` reports. -/
def Node.mtimeAttr : Node → Nat
  | .dir m _ _ => m
  | .file m _ _ => m

/-- The size attribute a successful `os.stat` reports. -/
def Node.sizeAttr : Node → Nat
  | .dir _ s _ => s
  | .file _ s _ => s

/-- One log message produced by the pass, one constructor per
`messages_for_log.append` site of `src/main.py` (lines 103, 110, 112, 129,
131, 143, 145, 150, 152). -/
inductive Outcome where
  | errorSourceMissing
  | infoCreatedDest
  | errorCreateDest (e : String)
  | infoRemoved (p : RPath)
  | errorRemove (p : RPath) (e : String)
  | infoCreatedDir (p : RPath)
  | errorCreateDir (p : RPath) (e : String)
  | infoCopied (p : RPath)
  | errorCopy (p : RPath) (e : String)
deriving Repr, DecidableEq

/-- Whether a message is one of the `Error:`-prefixed ones. -/
def Outcome.isError : Outcome → Bool
  | errorSourceMissing => true
  | errorCreateDest _ => true
  | errorRemove _ _ => true
  | errorCreateDir _ _ => true
  | errorCopy _ _ => true
  | _ => false

/-- Whether a message names the given relative path. -/
def Outcome.mentions : Outcome → RPath → Bool
  | infoRemoved q, p => q == p
  | errorRemove q _, p => q == p
  | infoCreatedDir q, p => q == p
  | errorCreateDir q _, p => q == p
  | infoCopied q, p => q == p
  | errorCopy q _, p => q == p
  | _, _ => false

/-- Find a child by name (`os.listdir` lookup). -/
def findChild (cs : List (Name × Node)) (n : Name) : Option Node :=
  (cs.find? (fun e => e.1 == n)).map (·.2)

/-- Replace the child named `n`. -/
def setChild (cs : List (Name × Node)) (n : Name) (c : Node) : List (Name × Node) :=
  cs.map (fun e => if e.1 == n then (n, c) else e)

/-- Delete the child named `n`. -/
def delChild (cs : List (Name × Node)) (n : Name) : List (Name × Node) :=
  cs.filter (fun e => !(e.1 == n))

/-- Resolve a relative path below a node. -/
def lookupN : Node → RPath → Option Node
  | nd, [] => some nd
  | .file .., _ :: _ => none
  | .dir _ _ cs, n :: p =>
      match findChild cs n with
      | some c => lookupN c p
      | none => none

/-- Resolve a relative path below a root that may itself be absent. -/
def lookupP : Option Node → RPath → Option Node
  | none, _ => none
  | some nd, p => lookupN nd p

/-- Python `os.path.exists`: `False` for a missing path and for any path whose
`stat` raises `OSError` (the function swallows the exception). -/
def path_exists : Option Node → Bool
  | none => false
  | some (.file _ _ r) => r
  | some (.dir ..) => true

/-- Python `os.path.isdir`, which likewise swallows `OSError`. -/
def path_isdir : Option Node → Bool
  | some (.dir ..) => true
  | _ => false

/-- Python `os.path.getmtime`: raises on a missing or unstatable path. -/
def getmtime : Option Node → Except String Nat
  | none => .error "FileNotFoundError"
  | some (.dir m _ _) => .ok m
  | some (.file m _ true) => .ok m
  | some (.file _ _ false) => .error "PermissionError"

/-- Python `os.path.getsize`: raises on a missing or unstatable path. -/
def getsize : Option Node → Except String Nat
  | none => .error "FileNotFoundError"
  | some (.dir _ s _) => .ok s
  | some (.file _ s true) => .ok s
  | some (.file _ _ false) => .error "PermissionError"

mutual
/-- Well-formedness of a node: sibling names are distinct at every level.
Real directories cannot hold two entries of the same name. -/
def wfN : Node → Bool
  | .file .. => true
  | .dir _ _ cs => wfL cs

def wfL : List (Name × Node) → Bool
  | [] => true
  | (n, c) :: rest => !(rest.any (fun e => e.1 == n)) && wfN c && wfL rest
end

/-- Well-formedness of an optional root. -/
def wfP : Option Node → Bool
  | none => true
  | some n => wfN n

/-- Lines 31-48, `same_file_check(source_item, dest_item)`.  The two
arguments are the nodes (or absence) the two paths resolve to.  Mirrors the
Python control flow exactly, including evaluation order and the
short-circuit of `and`: if the destination does not exist (or its stat
fails), `True`; else if the source is not a directory, the attribute
comparison, where reading an attribute of a missing/unstatable source path
raises out of the function (there is no `try` here); else `False`. -/
def same_file_check (source_item dest_item : Option Node) : Except String Bool :=
  if !(path_exists dest_item) then .ok true
  else if !(path_isdir source_item) then do
    let dm ← getmtime dest_item
    let sm ← getmtime source_item
    if dm == sm then do
      let dsz ← getsize dest_item
      let ssz ← getsize source_item
      pure (!(dsz == ssz))
    else pure true
  else .ok false

/-- The items yielded for one `os.walk` triple, in the order line 117
iterates them: `dirs + files`, i.e. the subdirectories first (in listing
order), then the files. -/
def walkTop (cs : List (Name × Node)) : List (RPath × Node) :=
  (cs.filter (fun e => e.2.isDirB) ++ cs.filter (fun e => !e.2.isDirB)).map
    (fun e => ([e.1], e.2))

mutual
/-- Items of `os.walk(root)` (top-down), flattened in visiting order: the
root triple first, then the triples of each subdirectory in turn.  Walking
a non-directory yields nothing, as in Python. -/
def walkPreN : Node → List (RPath × Node)
  | .file .. => []
  | .dir _ _ cs => walkTop cs ++ walkPreL cs

def walkPreL : List (Name × Node) → List (RPath × Node)
  | [] => []
  | (n, c) :: rest =>
      (if c.isDirB then (walkPreN c).map (fun q => (n :: q.1, q.2)) else []) ++
        walkPreL rest
end

mutual
/-- Items of `os.walk(root, topdown=False)`, flattened in visiting order:
the triples of each subdirectory first, then the root triple. -/
def walkPostN : Node → List (RPath × Node)
  | .file .. => []
  | .dir _ _ cs => walkPostL cs ++ walkTop cs

def walkPostL : List (Name × Node) → List (RPath × Node)
  | [] => []
  | (n, c) :: rest =>
      (if c.isDirB then (walkPostN c).map (fun q => (n :: q.1, q.2)) else []) ++
        walkPostL rest
end

/-- Python `os.remove`: deletes the file at the path; raises on a directory
or a missing path. -/
def os_remove : Node → RPath → Except String Node
  | _, [] => .error "IsADirectoryError"
  | .file .., _ :: _ => .error "FileNotFoundError"
  | .dir m s cs, [n] =>
      match findChild cs n with
      | some (.file ..) => .ok (.dir m s (delChild cs n))
      | some (.dir ..) => .error "IsADirectoryError"
      | none => .error "FileNotFoundError"
  | .dir m s cs, n :: q :: rest =>
      match findChild cs n with
      | some c => (os_remove c (q :: rest)).map (fun c2 => .dir m s (setChild cs n c2))
      | none => .error "FileNotFoundError"

/-- Python `os.rmdir`: deletes the directory at the path only if it is
empty; raises `OSError` on a non-empty directory, and on a file or a
missing path. -/
def os_rmdir : Node → RPath → Except String Node
  | _, [] => .error "OSError"
  | .file .., _ :: _ => .error "FileNotFoundError"
  | .dir m s cs, [n] =>
      match findChild cs n with
      | some (.dir _ _ []) => .ok (.dir m s (delChild cs n))
      | some (.dir _ _ (_ :: _)) => .error "OSError: Directory not empty"
      | some (.file ..) => .error "NotADirectoryError"
      | none => .error "FileNotFoundError"
  | .dir m s cs, n :: q :: rest =>
      match findChild cs n with
      | some c => (os_rmdir c (q :: rest)).map (fun c2 => .dir m s (setChild cs n c2))
      | none => .error "FileNotFoundError"

/-- The chain of fresh directories `os.makedirs` creates below a missing
component. -/
def mkdirChain : RPath → Node
  | [] => .dir 0 0 []
  | n :: rest => .dir 0 0 [(n, mkdirChain rest)]

/-- Python `os.makedirs(path)` (with the default `exist_ok=False`): creates
the directory and any missing intermediate directories; raises
`FileExistsError` if the final path already exists and `NotADirectoryError`
if a component is a file.  (A failing call never leaves partial state the
code could observe: a missing component only has missing components below
it, so the fresh chain below the first missing component always succeeds.) -/
def os_makedirs : Node → RPath → Except String Node
  | _, [] => .error "FileExistsError"
  | .file .., _ :: _ => .error "NotADirectoryError"
  | .dir m s cs, [n] =>
      match findChild cs n with
      | some _ => .error "FileExistsError"
      | none => .ok (.dir m s (cs ++ [(n, .dir 0 0 [])]))
  | .dir m s cs, n :: q :: rest =>
      match findChild cs n with
      | some c => (os_makedirs c (q :: rest)).map (fun c2 => .dir m s (setChild cs n c2))
      | none => .ok (.dir m s (cs ++ [(n, mkdirChain (q :: rest))]))

/-- Write a file with the given attributes at a path (the `copyfile` +
`copystat` part of `shutil.copy2`): overwrites an existing file, creates a
missing one; raises if the target is a directory or a parent is missing or
not a directory.  The written file's metadata is the source's. -/
def putFile : Node → RPath → Nat → Nat → Except String Node
  | _, [], _, _ => .error "IsADirectoryError"
  | .file .., _ :: _, _, _ => .error "NotADirectoryError"
  | .dir dm ds cs, [n], m, s =>
      match findChild cs n with
      | some (.dir ..) => .error "IsADirectoryError"
      | some (.file ..) => .ok (.dir dm ds (setChild cs n (.file m s true)))
      | none => .ok (.dir dm ds (cs ++ [(n, .file m s true)]))
  | .dir dm ds cs, n :: q :: rest, m, s =>
      match findChild cs n with
      | some c => (putFile c (q :: rest) m s).map (fun c2 => .dir dm ds (setChild cs n c2))
      | none => .error "FileNotFoundError"

/-- Python `shutil.copy2(source_item, dest_item)` where `dest_item` is the
relative path `p` below the destination root: if the destination path is an
existing directory, the file is copied INTO it under the source's basename
(which equals the last component of `p`); reading an unstatable source
raises; copying preserves the source's mtime and size. -/
def shutil_copy2 (source_item : Option Node) (root : Node) (p : RPath) :
    Except String Node :=
  match source_item with
  | none => .error "FileNotFoundError"
  | some (.dir ..) => .error "IsADirectoryError"
  | some (.file _ _ false) => .error "PermissionError"
  | some (.file m s true) =>
      let target := if path_isdir (lookupN root p) then p ++ [p.getLastD ""] else p
      putFile root target m s

/-- Lines 116-121: walk the destination bottom-up and slate every item whose
relative path does not exist under the source root (`os.path.exists` check,
so an unstatable source counterpart counts as absent). -/
def items_to_remove (src : Option Node) (root : Node) : List RPath :=
  (walkPostN root).filterMap
    (fun q => if path_exists (lookupP src q.1) then none else some q.1)

/-- Lines 123-131, one iteration: `os.rmdir` for a directory, `os.remove`
otherwise, one message either way; failures are caught. -/
def remove_step (t : Node) (p : RPath) : Node × Outcome :=
  if path_isdir (lookupN t p) then
    match os_rmdir t p with
    | .ok t2 => (t2, .infoRemoved p)
    | .error e => (t, .errorRemove p e)
  else
    match os_remove t p with
    | .ok t2 => (t2, .infoRemoved p)
    | .error e => (t, .errorRemove p e)

/-- Lines 123-131: remove the slated items in order. -/
def runRemovals : Node → List RPath → Node × List Outcome
  | t, [] => (t, [])
  | t, p :: rest =>
      let s := remove_step t p
      let r := runRemovals s.1 rest
      (r.1, s.2 :: r.2)

/-- Lines 137-152, one iteration of the creation/update loop for the source
item at relative path `p`: the `same_file_check` call sits OUTSIDE the
`try` blocks, so an exception it raises escapes (the `←` bind); the
`os.makedirs` / `shutil.copy2` failures are caught and logged. -/
def create_step (src : Option Node) (t : Node) (p : RPath) :
    Except String (Node × List Outcome) := do
  let b ← same_file_check (lookupP src p) (lookupN t p)
  if b then
    if path_isdir (lookupP src p) then
      match os_makedirs t p with
      | .ok t2 => pure (t2, [.infoCreatedDir p])
      | .error e => pure (t, [.errorCreateDir p e])
    else
      match shutil_copy2 (lookupP src p) t p with
      | .ok t2 => pure (t2, [.infoCopied p])
      | .error e => pure (t, [.errorCopy p e])
  else pure (t, [])

/-- Lines 133-152: fold `create_step` over the source items in `os.walk`
order. -/
def creationFold (src : Option Node) : Node → List RPath → Except String (Node × List Outcome)
  | t, [] => .ok (t, [])
  | t, p :: rest => do
      let s ← create_step src t p
      let r ← creationFold src s.1 rest
      pure (r.1, s.2 ++ r.2)

/-- The relative paths of the source items, in the order the creation loop
visits them (walking a non-directory source root yields nothing). -/
def srcItems (src : Option Node) : List RPath :=
  match src with
  | none => []
  | some n => (walkPreN n).map (·.1)

/-- Stages 3 and 4 of a pass over an existing destination root. -/
def runPass (src : Option Node) (root : Node) (msgs0 : List Outcome) :
    Except String (Option Node × List Outcome) := do
  let rm := runRemovals root (items_to_remove src root)
  let cr ← creationFold src rm.1 (srcItems src)
  pure (some cr.1, msgs0 ++ rm.2 ++ cr.2)

/-- Lines 87-154, `folder_synchronization`: the whole pass as a function
from the states of the source root path and the destination root path to
the new destination state and the message list handed to `update_log`
(an `Except.error` result models an exception propagating out of the
function).  Line 102 checks only `os.path.exists(source_folder)`.  Line 107:
a missing destination root is created (modelled as always succeeding for a
plain missing path); an existing-but-unstatable one makes `os.makedirs`
raise `FileExistsError`, caught at line 111 and fatal to the pass. -/
def folder_synchronization (src dst : Option Node) :
    Except String (Option Node × List Outcome) :=
  if !(path_exists src) then .ok (dst, [.errorSourceMissing])
  else
    match dst with
    | none => runPass src (.dir 0 0 []) [.infoCreatedDest]
    | some root =>
        if path_exists (some root) then runPass src root []
        else .ok (dst, [.errorCreateDest "FileExistsError"])

/-- Line 25: the argument of `time.sleep` in the scheduler loop,
`max(0, interval + start_time - time.time())`, with timestamps as exact
rationals (sub-second precision). -/
def sleep_duration (interval start_time now : ℚ) : ℚ :=
  max 0 (interval + start_time - now)

/-- The start time of the next pass: the loop reaches its next
`start_time = time.time()` right after sleeping. -/
def next_start (interval start_time now : ℚ) : ℚ :=
  now + sleep_duration interval start_time now

/-- State of the log file for `update_log`: whether the path currently
exists, its content, and whether opening it for writing / appending
succeeds (modelling the two `try` blocks' environmental failures). -/
structure LogFile where
  present : Bool
  data : String
  creatable : Bool
  appendable : Bool
deriving Repr, DecidableEq

/-- Line 61's section header (the formatted timestamp is abstract). -/
def log_header (stamp : String) : String :=
  "\n\nIn the synchronization of " ++ stamp ++ ", the following updates have been made:\n"

/-- Line 66's message (appended to the content list itself). -/
def created_log_line (logPath : String) : String :=
  "Info: Created log at " ++ logPath ++ " because it did not exist."

/-- Lines 72 and 80's message. -/
def no_changes_line : String := "Info: No changes have been made."

/-- Lines 50-84, `update_log(content, hour, log)`: returns the new log-file
state and the sequence of console prints.  If the file is missing, try to
create it (truncating open, so fresh content is empty) and on success append
an informational line to `content` itself; print the header and the body;
then try to append header and body to the file (`open(log, "a")` creates a
missing file); each failure is reported to the console only. -/
def update_log (content : List String) (stamp logPath : String) (lf : LogFile) :
    LogFile × List String :=
  let msg := log_header stamp
  let step1 :=
    if !lf.present then
      if lf.creatable then
        (LogFile.mk true "" lf.creatable lf.appendable,
         content ++ [created_log_line logPath], ([] : List String))
      else
        (lf, content,
         ["Error: Log at " ++ logPath ++ " did not exist and failed to create it."])
    else (lf, content, ([] : List String))
  let lf1 := step1.1
  let content1 := step1.2.1
  let console1 := step1.2.2
  let body :=
    if content1.isEmpty then no_changes_line ++ "\n"
    else String.intercalate "\n" content1
  let console2 := console1 ++ [msg] ++
    (if content1.isEmpty then [no_changes_line] else [String.intercalate "\n" content1])
  if lf1.appendable then
    (LogFile.mk true ((if lf1.present then lf1.data else "") ++ msg ++ body)
       lf1.creatable lf1.appendable,
     console2)
  else
    (lf1, console2 ++ ["Error: Failed to open " ++ logPath ++ " for writing."])

/-- The equivalence check as the amended claim describes it: destination
missing or unstatable means write; an existing source directory with an
existing destination means no write; a statable source file against an
existing destination compares mtime and size exactly; a missing or
unstatable source path with an existing destination makes the check raise
instead of returning. -/
def needs_write_spec (source_item dest_item : Option Node) : Except String Bool :=
  match dest_item with
  | none => .ok true
  | some d =>
      if !(path_exists (some d)) then .ok true
      else
        match source_item with
        | some (.dir ..) => .ok false
        | some (.file m s true) => .ok (!(d.mtimeAttr == m && d.sizeAttr == s))
        | some (.file _ _ false) => .error "PermissionError"
        | none => .error "FileNotFoundError"

/-! ### Theorems -/

/-- C1 counterexample: with source holding the file `a` (mtime 5, size 7)
and the destination initially holding a directory at `a`, one pass records
only the informational `copied` outcome (no per-item error), yet afterwards
the destination contains the relative path `a/a`, which is absent from the
source, and the destination still holds a directory at `a` where the source
holds a file: `shutil.copy2` copies INTO the existing directory.  So the
claimed path-set equality and file-attribute equality fail even though no
error outcome was recorded. -/
theorem sync_convergence_cex :
    folder_synchronization (some (.dir 0 0 [("a", .file 5 7 true)]))
        (some (.dir 0 0 [("a", .dir 1 2 [])])) =
      .ok (some (.dir 0 0 [("a", .dir 1 2 [("a", .file 5 7 true)])]),
        [.infoCopied ["a"]]) ∧
    (Outcome.infoCopied ["a"]).isError = false ∧
    lookupN (.dir 0 0 [("a", .dir 1 2 [("a", .file 5 7 true)])]) ["a", "a"] =
      some (.file 5 7 true) ∧
    lookupP (some (.dir 0 0 [("a", .file 5 7 true)])) ["a", "a"] = none ∧
    lookupP (some (.dir 0 0 [("a", .file 5 7 true)])) ["a"] = some (.file 5 7 true) ∧
    lookupN (.dir 0 0 [("a", .dir 1 2 [("a", .file 5 7 true)])]) ["a"] =
      some (.dir 1 2 [("a", .file 5 7 true)]) :=
  ⟨rfl, rfl, rfl, rfl, rfl, rfl⟩

/-- C7 counterexample: same scenario; the second pass, run on the unchanged
result of the first, records a removal outcome (for the stray `a/a`) and a
copy outcome, not zero outcomes — and it reproduces the same destination
state, so every following pass does the same. -/
theorem sync_idempotence_cex :
    folder_synchronization (some (.dir 0 0 [("a", .file 5 7 true)]))
        (some (.dir 0 0 [("a", .dir 1 2 [])])) =
      .ok (some (.dir 0 0 [("a", .dir 1 2 [("a", .file 5 7 true)])]),
        [.infoCopied ["a"]]) ∧
    folder_synchronization (some (.dir 0 0 [("a", .file 5 7 true)]))
        (some (.dir 0 0 [("a", .dir 1 2 [("a", .file 5 7 true)])])) =
      .ok (some (.dir 0 0 [("a", .dir 1 2 [("a", .file 5 7 true)])]),
        [.infoRemoved ["a", "a"], .infoCopied ["a"]]) ∧
    ([Outcome.infoRemoved ["a", "a"], Outcome.infoCopied ["a"]] : List Outcome) ≠ [] :=
  ⟨rfl, rfl, by simp⟩

/-- C6 counterexample: a source file whose equivalence check reports "needs
write" against a destination currently holding a directory at that path is
not copied onto its destination path: the copy lands inside the directory
(at `a/a`), while the destination path `a` keeps holding the directory. -/
theorem create_step_cex :
    create_step (some (.dir 0 0 [("a", .file 5 7 true)]))
        (.dir 0 0 [("a", .dir 1 2 [])]) ["a"] =
      .ok (.dir 0 0 [("a", .dir 1 2 [("a", .file 5 7 true)])], [.infoCopied ["a"]]) ∧
    same_file_check (lookupP (some (.dir 0 0 [("a", .file 5 7 true)])) ["a"])
        (lookupN (.dir 0 0 [("a", .dir 1 2 [])]) ["a"]) = .ok true ∧
    lookupN (.dir 0 0 [("a", .dir 1 2 [("a", .file 5 7 true)])]) ["a"] =
      some (.dir 1 2 [("a", .file 5 7 true)]) :=
  ⟨rfl, rfl, rfl⟩

/-- C2 counterexample: a source file whose attributes are unreadable, checked
against an existing destination, makes `same_file_check` raise
(`os.path.getmtime(source_item)` at line 45 is outside any `try`), rather
than return `True` as the claim states. -/
theorem same_file_check_unreadable_cex :
    same_file_check (some (.file 3 7 false)) (some (.file 3 7 true)) =
      .error "PermissionError" ∧
    (Except.error "PermissionError" : Except String Bool) ≠ .ok true :=
  ⟨rfl, by simp⟩

/-- C3 evidence: at the failing configuration (a source item that existed
when `os.walk` listed it but no longer exists at the line-138 check, with
its destination counterpart present) `same_file_check` raises, and because
line 138 sits outside every `try` block, the per-item loop propagates the
exception instead of logging a per-item error outcome. -/
theorem create_step_raise_propagates :
    same_file_check none (some (.file 1 2 true)) = .error "FileNotFoundError" ∧
    create_step (some (.dir 0 0 [])) (.dir 0 0 [("a", .file 1 2 true)]) ["a"] =
      .error "FileNotFoundError" ∧
    creationFold (some (.dir 0 0 [])) (.dir 0 0 [("a", .file 1 2 true)]) [["a"]] =
      .error "FileNotFoundError" :=
  ⟨rfl, rfl, rfl⟩

/-- C4 evidence: when the source root exists but is a regular file (not a
directory), line 102's bare `os.path.exists` check passes, no fatal outcome
is emitted, and the pass proceeds to remove every destination item — here
the file `b` — contradicting the claimed early termination. -/
theorem sync_file_source_root_no_fatal :
    folder_synchronization (some (.file 0 0 true))
        (some (.dir 0 0 [("b", .file 1 1 true)])) =
      .ok (some (.dir 0 0 []), [.infoRemoved ["b"]]) ∧
    (Outcome.infoRemoved ["b"]).isError = false :=
  ⟨rfl, rfl⟩

/-- C9 counterexample: when the log file is missing and the outcome sequence
is empty, the sink creates the log and then writes the header followed by
the `Created log` informational line (which line 66 appended to the content
list), not the single `no changes` line the claim promises for an empty
outcome sequence. -/
theorem update_log_fresh_log_cex :
    update_log [] "T" "log" (LogFile.mk false "" true true) =
      (LogFile.mk true (log_header "T" ++ created_log_line "log") true true,
       [log_header "T", created_log_line "log"]) ∧
    log_header "T" ++ created_log_line "log" ≠
      log_header "T" ++ (no_changes_line ++ "\n") :=
  ⟨by decide, by decide⟩

/-- C8 (confirmed): line 25 sleeps for
`max(0, interval + start_time - now)`, which equals
`max(0, interval - pass_duration)`; hence when the pass is no longer than
the interval the next start is exactly one interval after the previous
start, and a pass exceeding the interval is followed by zero delay. -/
theorem scheduler_delay (interval start_time now : ℚ) :
    sleep_duration interval start_time now =
      max 0 (interval - (now - start_time)) ∧
    (now - start_time ≤ interval →
      next_start interval start_time now = start_time + interval) ∧
    (interval ≤ now - start_time → sleep_duration interval start_time now = 0) := by
  refine ⟨?_, ?_, ?_⟩
  · unfold sleep_duration; congr 1; ring
  · intro hle
    unfold next_start sleep_duration
    rw [max_eq_right (by linarith)]
    ring
  · intro hge
    unfold sleep_duration
    rw [max_eq_left (by linarith)]

/-- Witness for `scheduler_delay`: with interval 5 and a 2-second pass the
sleep is 3 (next start lands 5 after the previous one); with a 7-second
pass the sleep is 0. -/
theorem scheduler_delay_witness :
    sleep_duration 5 0 2 = 3 ∧ sleep_duration 5 0 7 = 0 :=
  ⟨((scheduler_delay 5 0 2).1).trans (by norm_num),
   (scheduler_delay 5 0 7).2.2 (by norm_num)⟩

/-- C2 amended: `same_file_check` refines the amended description — write
when the destination is missing or unstatable; no write for an existing
source directory against an existing destination; exact mtime-and-size
comparison for a statable source file against an existing destination; and
a missing or attribute-unreadable SOURCE path with an existing destination
raises instead of returning `True`. -/
theorem same_file_check_eq_spec (s d : Option Node) :
    same_file_check s d = needs_write_spec s d := by
  match d with
  | none => rfl
  | some (.file dm ds false) => rfl
  | some (.file dm ds true) =>
      match s with
      | none => rfl
      | some (.dir ..) => rfl
      | some (.file _ _ false) => rfl
      | some (.file sm ss true) =>
          simp only [same_file_check, needs_write_spec, path_exists, path_isdir,
            getmtime, getsize, Node.mtimeAttr, Node.sizeAttr, Bool.not_false,
            Bool.not_true, if_true, if_false]
          by_cases hm : dm = sm <;>
            simp [hm, Bind.bind, Except.bind, Pure.pure, Except.pure]
  | some (.dir dm ds dcs) =>
      match s with
      | none => rfl
      | some (.dir ..) => rfl
      | some (.file _ _ false) => rfl
      | some (.file sm ss true) =>
          simp only [same_file_check, needs_write_spec, path_exists, path_isdir,
            getmtime, getsize, Node.mtimeAttr, Node.sizeAttr, Bool.not_false,
            Bool.not_true, if_true, if_false]
          by_cases hm : dm = sm <;>
            simp [hm, Bind.bind, Except.bind, Pure.pure, Except.pure]

/-! ### Toolbox: child-list lemmas -/

theorem findChild_cons (n0 : Name) (c0 : Node) (cs : List (Name × Node)) (n : Name) :
    findChild ((n0, c0) :: cs) n = if n0 = n then some c0 else findChild cs n := by
  by_cases h : n0 = n <;> simp [findChild, List.find?_cons, h]

theorem findChild_append (cs ds : List (Name × Node)) (n : Name) :
    findChild (cs ++ ds) n =
      match findChild cs n with
      | some c => some c
      | none => findChild ds n := by
  induction cs with
  | nil => simp [findChild]
  | cons e rest ih =>
      obtain ⟨n0, c0⟩ := e
      by_cases h : n0 = n <;> simp [findChild_cons, h, ih]

theorem findChild_setChild_self (cs : List (Name × Node)) (n : Name) (c : Node)
    (h : (findChild cs n).isSome) : findChild (setChild cs n c) n = some c := by
  induction cs with
  | nil => simp [findChild] at h
  | cons e rest ih =>
      obtain ⟨n0, c0⟩ := e
      by_cases hn : n0 = n
      · subst hn; simp [setChild, findChild_cons]
      · simp only [findChild_cons, hn, if_false] at h
        have : setChild ((n0, c0) :: rest) n c = (n0, c0) :: setChild rest n c := by
          simp [setChild, hn]
        rw [this, findChild_cons, if_neg hn, ih h]

theorem findChild_setChild_ne (cs : List (Name × Node)) (n k : Name) (c : Node)
    (h : k ≠ n) : findChild (setChild cs n c) k = findChild cs k := by
  induction cs with
  | nil => simp [setChild, findChild]
  | cons e rest ih =>
      obtain ⟨n0, c0⟩ := e
      by_cases hn : n0 = n
      · subst hn
        have : setChild ((n0, c0) :: rest) n0 c = (n0, c) :: setChild rest n0 c := by
          simp [setChild]
        rw [this, findChild_cons, findChild_cons, if_neg (fun he => h he.symm),
          if_neg (fun he => h he.symm), ih]
      · have : setChild ((n0, c0) :: rest) n c = (n0, c0) :: setChild rest n c := by
          simp [setChild, hn]
        rw [this, findChild_cons, findChild_cons, ih]

theorem findChild_delChild_self (cs : List (Name × Node)) (n : Name) :
    findChild (delChild cs n) n = none := by
  induction cs with
  | nil => simp [delChild, findChild]
  | cons e rest ih =>
      obtain ⟨n0, c0⟩ := e
      by_cases hn : n0 = n
      · subst hn; simpa [delChild] using ih
      · have : delChild ((n0, c0) :: rest) n = (n0, c0) :: delChild rest n := by
          simp [delChild, hn]
        rw [this, findChild_cons, if_neg hn, ih]

theorem findChild_delChild_ne (cs : List (Name × Node)) (n k : Name) (h : k ≠ n) :
    findChild (delChild cs n) k = findChild cs k := by
  induction cs with
  | nil => simp [delChild, findChild]
  | cons e rest ih =>
      obtain ⟨n0, c0⟩ := e
      by_cases hn : n0 = n
      · subst hn
        have : delChild ((n0, c0) :: rest) n0 = delChild rest n0 := by
          simp [delChild]
        rw [this, ih, findChild_cons, if_neg (fun he => h he.symm)]
      · have : delChild ((n0, c0) :: rest) n = (n0, c0) :: delChild rest n := by
          simp [delChild, hn]
        rw [this, findChild_cons, findChild_cons, ih]

theorem setChild_keys (cs : List (Name × Node)) (n : Name) (c : Node) :
    (setChild cs n c).map Prod.fst = cs.map Prod.fst := by
  induction cs with
  | nil => rfl
  | cons e rest ih =>
      obtain ⟨n0, c0⟩ := e
      by_cases hn : n0 = n
      · subst hn
        have hs : setChild ((n0, c0) :: rest) n0 c = (n0, c) :: setChild rest n0 c := by
          simp [setChild]
        rw [hs, List.map_cons, List.map_cons, ih]
      · have hs : setChild ((n0, c0) :: rest) n c = (n0, c0) :: setChild rest n c := by
          simp [setChild, hn]
        rw [hs, List.map_cons, List.map_cons, ih]

theorem any_key_congr : ∀ (cs ds : List (Name × Node)) (k : Name),
    cs.map Prod.fst = ds.map Prod.fst →
    cs.any (fun e => e.1 == k) = ds.any (fun e => e.1 == k)
  | [], [], _, _ => rfl
  | [], _ :: _, _, h => by simp at h
  | _ :: _, [], _, h => by simp at h
  | (n0, c0) :: rest, (m0, d0) :: ds2, k, h => by
      simp only [List.map_cons, List.cons.injEq] at h
      simp only [List.any_cons, h.1, any_key_congr rest ds2 k h.2]

/-! ### Toolbox: well-formedness preservation -/

theorem wfL_cons_iff (n : Name) (c : Node) (rest : List (Name × Node)) :
    wfL ((n, c) :: rest) = true ↔
      rest.any (fun e => e.1 == n) = false ∧ wfN c = true ∧ wfL rest = true := by
  show (!(rest.any (fun e => e.1 == n)) && wfN c && wfL rest) = true ↔ _
  simp [Bool.and_eq_true, Bool.not_eq_true', and_assoc]

theorem wfL_setChild (cs : List (Name × Node)) (n : Name) (c : Node)
    (hw : wfL cs = true) (hc : wfN c = true) : wfL (setChild cs n c) = true := by
  induction cs with
  | nil => simp [setChild, wfL]
  | cons e rest ih =>
      obtain ⟨n0, c0⟩ := e
      rw [wfL_cons_iff] at hw
      obtain ⟨hany, hwc, hwr⟩ := hw
      by_cases hn : n0 = n
      · subst hn
        have hs : setChild ((n0, c0) :: rest) n0 c = (n0, c) :: setChild rest n0 c := by
          simp [setChild]
        rw [hs, wfL_cons_iff]
        rw [any_key_congr _ rest n0 (setChild_keys rest n0 c)]
        exact ⟨hany, hc, ih hwr⟩
      · have hs : setChild ((n0, c0) :: rest) n c = (n0, c0) :: setChild rest n c := by
          simp [setChild, hn]
        rw [hs, wfL_cons_iff]
        rw [any_key_congr _ rest n0 (setChild_keys rest n c)]
        exact ⟨hany, hwc, ih hwr⟩

theorem wfL_delChild (cs : List (Name × Node)) (n : Name) (hw : wfL cs = true) :
    wfL (delChild cs n) = true := by
  induction cs with
  | nil => simp [delChild, wfL]
  | cons e rest ih =>
      obtain ⟨n0, c0⟩ := e
      rw [wfL_cons_iff] at hw
      obtain ⟨hany, hwc, hwr⟩ := hw
      by_cases hn : n0 = n
      · subst hn; simpa [delChild] using ih hwr
      · have hs : delChild ((n0, c0) :: rest) n = (n0, c0) :: delChild rest n := by
          simp [delChild, hn]
        rw [hs, wfL_cons_iff]
        refine ⟨?_, hwc, ih hwr⟩
        cases hv : (delChild rest n).any (fun e => e.1 == n0)
        · rfl
        · exfalso
          rw [List.any_eq_true] at hv
          obtain ⟨e, he, hee⟩ := hv
          have : rest.any (fun e => e.1 == n0) = true :=
            List.any_eq_true.mpr ⟨e, List.mem_of_mem_filter he, hee⟩
          rw [this] at hany
          simp at hany

theorem wfL_append_single (cs : List (Name × Node)) (n : Name) (c : Node)
    (hw : wfL cs = true) (hc : wfN c = true) (hf : findChild cs n = none) :
    wfL (cs ++ [(n, c)]) = true := by
  induction cs with
  | nil =>
      rw [List.nil_append, wfL_cons_iff]
      exact ⟨rfl, hc, rfl⟩
  | cons e rest ih =>
      obtain ⟨n0, c0⟩ := e
      rw [wfL_cons_iff] at hw
      obtain ⟨hany, hwc, hwr⟩ := hw
      rw [findChild_cons] at hf
      by_cases hn : n0 = n
      · simp [hn] at hf
      · rw [if_neg hn] at hf
        rw [List.cons_append, wfL_cons_iff]
        refine ⟨?_, hwc, ih hwr hf⟩
        rw [List.any_append, hany]
        simp only [Bool.false_or, List.any_cons, List.any_nil, Bool.or_false]
        exact beq_eq_false_iff_ne.mpr (fun he => hn he.symm)

/-! ### Toolbox: prefixes and lookups -/

theorem cons_pfx_cons {a b : Name} {l1 l2 : List Name} :
    (a :: l1) <+: (b :: l2) ↔ a = b ∧ l1 <+: l2 := by
  constructor
  · rintro ⟨t, ht⟩
    injection ht with h1 h2
    exact ⟨h1, t, h2⟩
  · rintro ⟨rfl, t, ht⟩
    exact ⟨t, by rw [List.cons_append, ht]⟩

theorem lookupN_nil (t : Node) : lookupN t [] = some t := by cases t <;> rfl

theorem lookupN_dir (m s : Nat) (cs : List (Name × Node)) (n : Name) (p : RPath) :
    lookupN (.dir m s cs) (n :: p) =
      match findChild cs n with
      | some c => lookupN c p
      | none => none := rfl

theorem lookupN_file (m s : Nat) (r : Bool) (n : Name) (p : RPath) :
    lookupN (.file m s r) (n :: p) = none := rfl

theorem lookupN_append (t : Node) (a b : RPath) :
    lookupN t (a ++ b) =
      match lookupN t a with
      | some u => lookupN u b
      | none => none := by
  induction a generalizing t with
  | nil => rw [List.nil_append, lookupN_nil]
  | cons n a ih =>
      cases t with
      | file m s r => rfl
      | dir m s cs =>
          rw [List.cons_append, lookupN_dir, lookupN_dir]
          cases findChild cs n with
          | some c => exact ih c
          | none => rfl

theorem lookupN_pfx_some (t : Node) (a b : RPath) (hp : a <+: b)
    (h : (lookupN t b).isSome) : (lookupN t a).isSome := by
  obtain ⟨c, rfl⟩ := hp
  rw [lookupN_append] at h
  cases hl : lookupN t a with
  | some u => simp
  | none => rw [hl] at h; simp at h

theorem lookupN_strict_pfx_dir (t : Node) (a b : RPath) (ha : a <+: b) (hne : a ≠ b)
    (h : (lookupN t b).isSome) : path_isdir (lookupN t a) = true := by
  obtain ⟨c, rfl⟩ := ha
  have hc : c ≠ [] := by rintro rfl; simp at hne
  rw [lookupN_append] at h
  cases hl : lookupN t a with
  | none => rw [hl] at h; simp at h
  | some u =>
      rw [hl] at h
      cases u with
      | dir m s cs => rfl
      | file m s r =>
          cases c with
          | nil => exact absurd rfl hc
          | cons x xs => simp [lookupN] at h

theorem lookupN_under_file (t : Node) (a b : RPath) (ha : a <+: b) (hne : a ≠ b)
    (m s : Nat) (r : Bool) (h : lookupN t a = some (.file m s r)) :
    lookupN t b = none := by
  obtain ⟨c, rfl⟩ := ha
  have hc : c ≠ [] := by rintro rfl; simp at hne
  rw [lookupN_append, h]
  cases c with
  | nil => exact absurd rfl hc
  | cons x xs => rfl

theorem wfL_findChild (cs : List (Name × Node)) (n : Name) (c : Node)
    (hw : wfL cs = true) (hf : findChild cs n = some c) : wfN c = true := by
  induction cs with
  | nil => simp [findChild] at hf
  | cons e rest ih =>
      obtain ⟨n0, c0⟩ := e
      rw [wfL_cons_iff] at hw
      rw [findChild_cons] at hf
      by_cases hn : n0 = n
      · rw [if_pos hn] at hf
        injection hf with hf
        exact hf ▸ hw.2.1
      · rw [if_neg hn] at hf
        exact ih hw.2.2 hf

theorem except_map_ok {α β γ : Type} (f : α → β) (e : Except γ α) (b : β)
    (h : e.map f = .ok b) : ∃ a, e = .ok a ∧ b = f a := by
  cases e with
  | ok a =>
      refine ⟨a, rfl, ?_⟩
      have : (Except.ok (f a) : Except γ β) = .ok b := h
      injection this with h2
      exact h2.symm
  | error e => simp [Except.map] at h

/-! ### Toolbox: success characterizations of the filesystem mutations -/

theorem os_remove_ok_spec : ∀ (t t2 : Node) (p : RPath), os_remove t p = .ok t2 →
    (∃ fm fs fr, lookupN t p = some (.file fm fs fr)) ∧
    (∀ q, p <+: q → lookupN t2 q = none) ∧
    (∀ q, ¬ q <+: p → ¬ p <+: q → lookupN t2 q = lookupN t q) ∧
    (∀ q, q <+: p → q ≠ p →
      ((lookupN t2 q).isSome = true ∧
        path_isdir (lookupN t2 q) = path_isdir (lookupN t q))) ∧
    (wfN t = true → wfN t2 = true)
  | t, t2, [], h => by cases t <;> simp [os_remove] at h
  | .file fm fs fr, t2, n :: p, h => by simp [os_remove] at h
  | .dir m s cs, t2, [n], h => by
      cases hf : findChild cs n with
      | none => simp [os_remove, hf] at h
      | some c =>
          cases c with
          | dir cm csz ccs => simp [os_remove, hf] at h
          | file fm fs fr =>
              simp only [os_remove, hf] at h
              injection h with h
              subst h
              refine ⟨⟨fm, fs, fr, by simp [lookupN, hf]⟩, ?_, ?_, ?_, ?_⟩
              · intro q hq
                cases q with
                | nil => rw [List.prefix_nil] at hq; simp at hq
                | cons k q2 =>
                    obtain ⟨rfl, -⟩ := cons_pfx_cons.mp hq
                    simp [lookupN, findChild_delChild_self]
              · intro q h1 h2
                cases q with
                | nil => exact absurd List.nil_prefix h1
                | cons k q2 =>
                    by_cases hk : k = n
                    · subst hk
                      exact absurd (cons_pfx_cons.mpr ⟨rfl, List.nil_prefix⟩) h2
                    · rw [lookupN_dir, lookupN_dir,
                        findChild_delChild_ne cs n k (fun he => hk he)]
              · intro q hq hne
                cases q with
                | nil => exact ⟨by simp [lookupN_nil], rfl⟩
                | cons k q2 =>
                    obtain ⟨rfl, hq2⟩ := cons_pfx_cons.mp hq
                    rw [List.prefix_nil] at hq2
                    subst hq2
                    exact absurd rfl hne
              · intro hw
                exact wfL_delChild cs n hw
  | .dir m s cs, t2, n :: q0 :: rest, h => by
      cases hf : findChild cs n with
      | none => simp [os_remove, hf] at h
      | some c =>
          simp only [os_remove, hf] at h
          obtain ⟨c2, hrec, rfl⟩ := except_map_ok _ _ _ h
          have IH := os_remove_ok_spec c c2 (q0 :: rest) hrec
          have hfc2 : findChild (setChild cs n c2) n = some c2 :=
            findChild_setChild_self cs n c2 (by simp [hf])
          have hstep : ∀ q2, lookupN (.dir m s cs) (n :: q2) = lookupN c q2 := by
            intro q2; rw [lookupN_dir, hf]
          have hstep2 : ∀ q2,
              lookupN (.dir m s (setChild cs n c2)) (n :: q2) = lookupN c2 q2 := by
            intro q2; rw [lookupN_dir, hfc2]
          refine ⟨?_, ?_, ?_, ?_, ?_⟩
          · obtain ⟨a, b, r0, h1⟩ := IH.1
            exact ⟨a, b, r0, by rw [hstep]; exact h1⟩
          · intro q hq
            cases q with
            | nil => rw [List.prefix_nil] at hq; simp at hq
            | cons k q2 =>
                obtain ⟨rfl, hq2⟩ := cons_pfx_cons.mp hq
                rw [hstep2]
                exact IH.2.1 q2 hq2
          · intro q h1 h2
            cases q with
            | nil => exact absurd List.nil_prefix h1
            | cons k q2 =>
                by_cases hk : k = n
                · subst hk
                  rw [hstep2, hstep]
                  exact IH.2.2.1 q2 (fun hc => h1 (cons_pfx_cons.mpr ⟨rfl, hc⟩))
                    (fun hc => h2 (cons_pfx_cons.mpr ⟨rfl, hc⟩))
                · rw [lookupN_dir, lookupN_dir,
                    findChild_setChild_ne cs n k c2 (fun he => hk he)]
          · intro q hq hne
            cases q with
            | nil => exact ⟨by simp [lookupN_nil], rfl⟩
            | cons k q2 =>
                obtain ⟨rfl, hq2⟩ := cons_pfx_cons.mp hq
                rw [hstep2, hstep]
                exact IH.2.2.2.1 q2 hq2 (fun he => hne (by rw [he]))
          · intro hw
            exact wfL_setChild cs n c2 hw
              (IH.2.2.2.2 (wfL_findChild cs n c hw hf))

theorem os_rmdir_ok_spec : ∀ (t t2 : Node) (p : RPath), os_rmdir t p = .ok t2 →
    (∃ dm dsz, lookupN t p = some (.dir dm dsz [])) ∧
    (∀ q, p <+: q → lookupN t2 q = none) ∧
    (∀ q, ¬ q <+: p → ¬ p <+: q → lookupN t2 q = lookupN t q) ∧
    (∀ q, q <+: p → q ≠ p →
      ((lookupN t2 q).isSome = true ∧
        path_isdir (lookupN t2 q) = path_isdir (lookupN t q))) ∧
    (wfN t = true → wfN t2 = true)
  | t, t2, [], h => by cases t <;> simp [os_rmdir] at h
  | .file fm fs fr, t2, n :: p, h => by simp [os_rmdir] at h
  | .dir m s cs, t2, [n], h => by
      cases hf : findChild cs n with
      | none => simp [os_rmdir, hf] at h
      | some c =>
          match c with
          | .file .. => simp [os_rmdir, hf] at h
          | .dir cm csz (_ :: _) => simp [os_rmdir, hf] at h
          | .dir cm csz [] =>
              simp only [os_rmdir, hf] at h
              injection h with h
              subst h
              refine ⟨⟨cm, csz, by simp [lookupN, hf]⟩, ?_, ?_, ?_, ?_⟩
              · intro q hq
                cases q with
                | nil => rw [List.prefix_nil] at hq; simp at hq
                | cons k q2 =>
                    obtain ⟨rfl, -⟩ := cons_pfx_cons.mp hq
                    simp [lookupN, findChild_delChild_self]
              · intro q h1 h2
                cases q with
                | nil => exact absurd List.nil_prefix h1
                | cons k q2 =>
                    by_cases hk : k = n
                    · subst hk
                      exact absurd (cons_pfx_cons.mpr ⟨rfl, List.nil_prefix⟩) h2
                    · rw [lookupN_dir, lookupN_dir,
                        findChild_delChild_ne cs n k (fun he => hk he)]
              · intro q hq hne
                cases q with
                | nil => exact ⟨by simp [lookupN_nil], rfl⟩
                | cons k q2 =>
                    obtain ⟨rfl, hq2⟩ := cons_pfx_cons.mp hq
                    rw [List.prefix_nil] at hq2
                    subst hq2
                    exact absurd rfl hne
              · intro hw
                exact wfL_delChild cs n hw
  | .dir m s cs, t2, n :: q0 :: rest, h => by
      cases hf : findChild cs n with
      | none => simp [os_rmdir, hf] at h
      | some c =>
          simp only [os_rmdir, hf] at h
          obtain ⟨c2, hrec, rfl⟩ := except_map_ok _ _ _ h
          have IH := os_rmdir_ok_spec c c2 (q0 :: rest) hrec
          have hfc2 : findChild (setChild cs n c2) n = some c2 :=
            findChild_setChild_self cs n c2 (by simp [hf])
          have hstep : ∀ q2, lookupN (.dir m s cs) (n :: q2) = lookupN c q2 := by
            intro q2; rw [lookupN_dir, hf]
          have hstep2 : ∀ q2,
              lookupN (.dir m s (setChild cs n c2)) (n :: q2) = lookupN c2 q2 := by
            intro q2; rw [lookupN_dir, hfc2]
          refine ⟨?_, ?_, ?_, ?_, ?_⟩
          · obtain ⟨a, b, h1⟩ := IH.1
            exact ⟨a, b, by rw [hstep]; exact h1⟩
          · intro q hq
            cases q with
            | nil => rw [List.prefix_nil] at hq; simp at hq
            | cons k q2 =>
                obtain ⟨rfl, hq2⟩ := cons_pfx_cons.mp hq
                rw [hstep2]
                exact IH.2.1 q2 hq2
          · intro q h1 h2
            cases q with
            | nil => exact absurd List.nil_prefix h1
            | cons k q2 =>
                by_cases hk : k = n
                · subst hk
                  rw [hstep2, hstep]
                  exact IH.2.2.1 q2 (fun hc => h1 (cons_pfx_cons.mpr ⟨rfl, hc⟩))
                    (fun hc => h2 (cons_pfx_cons.mpr ⟨rfl, hc⟩))
                · rw [lookupN_dir, lookupN_dir,
                    findChild_setChild_ne cs n k c2 (fun he => hk he)]
          · intro q hq hne
            cases q with
            | nil => exact ⟨by simp [lookupN_nil], rfl⟩
            | cons k q2 =>
                obtain ⟨rfl, hq2⟩ := cons_pfx_cons.mp hq
                rw [hstep2, hstep]
                exact IH.2.2.2.1 q2 hq2 (fun he => hne (by rw [he]))
          · intro hw
            exact wfL_setChild cs n c2 hw
              (IH.2.2.2.2 (wfL_findChild cs n c hw hf))

theorem mkdirChain_lookup_pfx : ∀ (p q : RPath), q <+: p →
    (lookupN (mkdirChain p) q).isSome = true ∧
    path_isdir (lookupN (mkdirChain p) q) = true
  | p, [], _ => by cases p <;> simp [mkdirChain, lookupN_nil, path_isdir]
  | [], k :: q2, hq => by rw [List.prefix_nil] at hq; simp at hq
  | n :: rest, k :: q2, hq => by
      obtain ⟨rfl, hq2⟩ := cons_pfx_cons.mp hq
      have : lookupN (mkdirChain (k :: rest)) (k :: q2) =
          lookupN (mkdirChain rest) q2 := by
        show lookupN (.dir 0 0 [(k, mkdirChain rest)]) (k :: q2) = _
        rw [lookupN_dir, findChild_cons, if_pos rfl]
      rw [this]
      exact mkdirChain_lookup_pfx rest q2 hq2

theorem mkdirChain_lookup_off : ∀ (p q : RPath), ¬ q <+: p →
    lookupN (mkdirChain p) q = none
  | p, [], hq => absurd List.nil_prefix hq
  | [], k :: q2, hq => by simp [mkdirChain, lookupN_dir, findChild]
  | n :: rest, k :: q2, hq => by
      by_cases hk : k = n
      · subst hk
        have : lookupN (mkdirChain (k :: rest)) (k :: q2) =
            lookupN (mkdirChain rest) q2 := by
          show lookupN (.dir 0 0 [(k, mkdirChain rest)]) (k :: q2) = _
          rw [lookupN_dir, findChild_cons, if_pos rfl]
        rw [this]
        exact mkdirChain_lookup_off rest q2 (fun hc => hq (cons_pfx_cons.mpr ⟨rfl, hc⟩))
      · show lookupN (.dir 0 0 [(n, mkdirChain rest)]) (k :: q2) = none
        rw [lookupN_dir, findChild_cons, if_neg (fun he => hk he.symm)]
        rfl

theorem mkdirChain_wf : ∀ p : RPath, wfN (mkdirChain p) = true
  | [] => rfl
  | n :: rest => by
      show wfL [(n, mkdirChain rest)] = true
      rw [wfL_cons_iff]
      exact ⟨rfl, mkdirChain_wf rest, rfl⟩

theorem putFile_ok_spec : ∀ (t t2 : Node) (p : RPath) (m s : Nat),
    putFile t p m s = .ok t2 →
    lookupN t2 p = some (.file m s true) ∧
    (∀ q, ¬ q <+: p → ¬ p <+: q → lookupN t2 q = lookupN t q) ∧
    (∀ q, p <+: q → q ≠ p → lookupN t2 q = none ∧ lookupN t q = none) ∧
    (∀ q, q <+: p → q ≠ p →
      (lookupN t q).isSome = true ∧ path_isdir (lookupN t q) = true ∧
      (lookupN t2 q).isSome = true ∧ path_isdir (lookupN t2 q) = true) ∧
    path_isdir (lookupN t p) = false ∧
    (wfN t = true → wfN t2 = true)
  | t, t2, [], m, s, h => by cases t <;> simp [putFile] at h
  | .file fm fs fr, t2, n :: p, m, s, h => by simp [putFile] at h
  | .dir dm ds cs, t2, [n], m, s, h => by
      cases hf : findChild cs n with
      | some c =>
          match c with
          | .dir .. => simp [putFile, hf] at h
          | .file f1 f2 f3 =>
              simp only [putFile, hf] at h
              injection h with h
              subst h
              have hfs : findChild (setChild cs n (Node.file m s true)) n =
                  some (.file m s true) :=
                findChild_setChild_self cs n _ (by simp [hf])
              refine ⟨by simp [lookupN, hfs], ?_, ?_, ?_, by simp [lookupN, hf, path_isdir], ?_⟩
              · intro q h1 h2
                cases q with
                | nil => exact absurd List.nil_prefix h1
                | cons k q2 =>
                    by_cases hk : k = n
                    · subst hk
                      exact absurd (cons_pfx_cons.mpr ⟨rfl, List.nil_prefix⟩) h2
                    · rw [lookupN_dir, lookupN_dir,
                        findChild_setChild_ne cs n k _ (fun he => hk he)]
              · intro q hq hne
                cases q with
                | nil => exact absurd (List.prefix_nil.mp hq).symm hne
                | cons k q2 =>
                    obtain ⟨rfl, -⟩ := cons_pfx_cons.mp hq
                    cases q2 with
                    | nil => exact absurd rfl hne
                    | cons k2 q3 =>
                        constructor
                        · rw [lookupN_dir, hfs]; rfl
                        · rw [lookupN_dir, hf]; rfl
              · intro q hq hne
                cases q with
                | nil =>
                    exact ⟨by simp [lookupN_nil], rfl, by simp [lookupN_nil], rfl⟩
                | cons k q2 =>
                    obtain ⟨rfl, hq2⟩ := cons_pfx_cons.mp hq
                    rw [List.prefix_nil] at hq2
                    subst hq2
                    exact absurd rfl hne
              · intro hw
                exact wfL_setChild cs n _ hw rfl
      | none =>
          simp only [putFile, hf] at h
          injection h with h
          subst h
          have hfa : findChild (cs ++ [(n, Node.file m s true)]) n =
              some (.file m s true) := by
            rw [findChild_append, hf, findChild_cons, if_pos rfl]
          refine ⟨by simp [lookupN, hfa], ?_, ?_, ?_, by simp [lookupN, hf, path_isdir], ?_⟩
          · intro q h1 h2
            cases q with
            | nil => exact absurd List.nil_prefix h1
            | cons k q2 =>
                by_cases hk : k = n
                · subst hk
                  exact absurd (cons_pfx_cons.mpr ⟨rfl, List.nil_prefix⟩) h2
                · rw [lookupN_dir, lookupN_dir, findChild_append]
                  cases hck : findChild cs k with
                  | some c0 => rfl
                  | none =>
                      rw [findChild_cons, if_neg (fun he => hk he.symm)]
                      rfl
          · intro q hq hne
            cases q with
            | nil => exact absurd (List.prefix_nil.mp hq).symm hne
            | cons k q2 =>
                obtain ⟨rfl, -⟩ := cons_pfx_cons.mp hq
                cases q2 with
                | nil => exact absurd rfl hne
                | cons k2 q3 =>
                    constructor
                    · rw [lookupN_dir, hfa]; rfl
                    · rw [lookupN_dir, hf]
          · intro q hq hne
            cases q with
            | nil => exact ⟨by simp [lookupN_nil], rfl, by simp [lookupN_nil], rfl⟩
            | cons k q2 =>
                obtain ⟨rfl, hq2⟩ := cons_pfx_cons.mp hq
                rw [List.prefix_nil] at hq2
                subst hq2
                exact absurd rfl hne
          · intro hw
            exact wfL_append_single cs n _ hw rfl hf
  | .dir dm ds cs, t2, n :: q0 :: rest, m, s, h => by
      cases hf : findChild cs n with
      | none => simp [putFile, hf] at h
      | some c =>
          simp only [putFile, hf] at h
          obtain ⟨c2, hrec, rfl⟩ := except_map_ok _ _ _ h
          have IH := putFile_ok_spec c c2 (q0 :: rest) m s hrec
          have hfc2 : findChild (setChild cs n c2) n = some c2 :=
            findChild_setChild_self cs n c2 (by simp [hf])
          have hstep : ∀ q2, lookupN (.dir dm ds cs) (n :: q2) = lookupN c q2 := by
            intro q2; rw [lookupN_dir, hf]
          have hstep2 : ∀ q2,
              lookupN (.dir dm ds (setChild cs n c2)) (n :: q2) = lookupN c2 q2 := by
            intro q2; rw [lookupN_dir, hfc2]
          refine ⟨by rw [hstep2]; exact IH.1, ?_, ?_, ?_, by rw [hstep]; exact IH.2.2.2.2.1, ?_⟩
          · intro q h1 h2
            cases q with
            | nil => exact absurd List.nil_prefix h1
            | cons k q2 =>
                by_cases hk : k = n
                · subst hk
                  rw [hstep2, hstep]
                  exact IH.2.1 q2 (fun hc => h1 (cons_pfx_cons.mpr ⟨rfl, hc⟩))
                    (fun hc => h2 (cons_pfx_cons.mpr ⟨rfl, hc⟩))
                · rw [lookupN_dir, lookupN_dir,
                    findChild_setChild_ne cs n k c2 (fun he => hk he)]
          · intro q hq hne
            cases q with
            | nil => exact absurd (List.prefix_nil.mp hq).symm hne
            | cons k q2 =>
                obtain ⟨rfl, hq2⟩ := cons_pfx_cons.mp hq
                rw [hstep2, hstep]
                exact IH.2.2.1 q2 hq2 (fun he => hne (by rw [he]))
          · intro q hq hne
            cases q with
            | nil => exact ⟨by simp [lookupN_nil], rfl, by simp [lookupN_nil], rfl⟩
            | cons k q2 =>
                obtain ⟨rfl, hq2⟩ := cons_pfx_cons.mp hq
                rw [hstep2, hstep]
                exact IH.2.2.2.1 q2 hq2 (fun he => hne (by rw [he]))
          · intro hw
            exact wfL_setChild cs n c2 hw
              (IH.2.2.2.2.2 (wfL_findChild cs n c hw hf))

theorem os_makedirs_ok_spec : ∀ (t t2 : Node) (p : RPath),
    os_makedirs t p = .ok t2 →
    lookupN t p = none ∧
    (∀ q, ¬ q <+: p → lookupN t2 q = lookupN t q) ∧
    (∀ q, q <+: p →
      (lookupN t2 q).isSome = true ∧ path_isdir (lookupN t2 q) = true) ∧
    (∀ q, q <+: p → q ≠ p →
      path_isdir (lookupN t q) = true ∨ lookupN t q = none) ∧
    (wfN t = true → wfN t2 = true)
  | t, t2, [], h => by cases t <;> simp [os_makedirs] at h
  | .file fm fs fr, t2, n :: p, h => by simp [os_makedirs] at h
  | .dir m s cs, t2, [n], h => by
      cases hf : findChild cs n with
      | some c => simp [os_makedirs, hf] at h
      | none =>
          simp only [os_makedirs, hf] at h
          injection h with h
          subst h
          have hfa : findChild (cs ++ [(n, Node.dir 0 0 [])]) n =
              some (.dir 0 0 []) := by
            rw [findChild_append, hf, findChild_cons, if_pos rfl]
          refine ⟨by simp [lookupN, hf], ?_, ?_, ?_, ?_⟩
          · intro q hq
            cases q with
            | nil => exact absurd List.nil_prefix hq
            | cons k q2 =>
                by_cases hk : k = n
                · subst hk
                  have hq2 : q2 ≠ [] := by
                    rintro rfl
                    exact hq (cons_pfx_cons.mpr ⟨rfl, List.nil_prefix⟩)
                  cases q2 with
                  | nil => exact absurd rfl hq2
                  | cons k2 q3 =>
                      rw [lookupN_dir, lookupN_dir, hfa, hf]
                      show lookupN (.dir 0 0 []) (k2 :: q3) = none
                      rw [lookupN_dir]
                      rfl
                · rw [lookupN_dir, lookupN_dir, findChild_append]
                  cases hck : findChild cs k with
                  | some c0 => rfl
                  | none =>
                      rw [findChild_cons, if_neg (fun he => hk he.symm)]
                      rfl
          · intro q hq
            cases q with
            | nil => exact ⟨by simp [lookupN_nil], rfl⟩
            | cons k q2 =>
                obtain ⟨rfl, hq2⟩ := cons_pfx_cons.mp hq
                rw [List.prefix_nil] at hq2
                subst hq2
                exact ⟨by simp [lookupN, hfa], by simp [lookupN, hfa, path_isdir]⟩
          · intro q hq hne
            cases q with
            | nil => exact Or.inl rfl
            | cons k q2 =>
                obtain ⟨rfl, hq2⟩ := cons_pfx_cons.mp hq
                rw [List.prefix_nil] at hq2
                subst hq2
                exact absurd rfl hne
          · intro hw
            exact wfL_append_single cs n _ hw rfl hf
  | .dir m s cs, t2, n :: q0 :: rest, h => by
      cases hf : findChild cs n with
      | some c =>
          simp only [os_makedirs, hf] at h
          obtain ⟨c2, hrec, rfl⟩ := except_map_ok _ _ _ h
          have IH := os_makedirs_ok_spec c c2 (q0 :: rest) hrec
          have hfc2 : findChild (setChild cs n c2) n = some c2 :=
            findChild_setChild_self cs n c2 (by simp [hf])
          have hstep : ∀ q2, lookupN (.dir m s cs) (n :: q2) = lookupN c q2 := by
            intro q2; rw [lookupN_dir, hf]
          have hstep2 : ∀ q2,
              lookupN (.dir m s (setChild cs n c2)) (n :: q2) = lookupN c2 q2 := by
            intro q2; rw [lookupN_dir, hfc2]
          refine ⟨by rw [hstep]; exact IH.1, ?_, ?_, ?_, ?_⟩
          · intro q hq
            cases q with
            | nil => exact absurd List.nil_prefix hq
            | cons k q2 =>
                by_cases hk : k = n
                · subst hk
                  rw [hstep2, hstep]
                  exact IH.2.1 q2 (fun hc => hq (cons_pfx_cons.mpr ⟨rfl, hc⟩))
                · rw [lookupN_dir, lookupN_dir,
                    findChild_setChild_ne cs n k c2 (fun he => hk he)]
          · intro q hq
            cases q with
            | nil => exact ⟨by simp [lookupN_nil], rfl⟩
            | cons k q2 =>
                obtain ⟨rfl, hq2⟩ := cons_pfx_cons.mp hq
                rw [hstep2]
                exact IH.2.2.1 q2 hq2
          · intro q hq hne
            cases q with
            | nil => exact Or.inl rfl
            | cons k q2 =>
                obtain ⟨rfl, hq2⟩ := cons_pfx_cons.mp hq
                rw [hstep]
                exact IH.2.2.2.1 q2 hq2 (fun he => hne (by rw [he]))
          · intro hw
            exact wfL_setChild cs n c2 hw
              (IH.2.2.2.2 (wfL_findChild cs n c hw hf))
      | none =>
          simp only [os_makedirs, hf] at h
          injection h with h
          subst h
          have hfa : findChild (cs ++ [(n, mkdirChain (q0 :: rest))]) n =
              some (mkdirChain (q0 :: rest)) := by
            rw [findChild_append, hf, findChild_cons, if_pos rfl]
          have hstep2 : ∀ q2,
              lookupN (.dir m s (cs ++ [(n, mkdirChain (q0 :: rest))])) (n :: q2) =
                lookupN (mkdirChain (q0 :: rest)) q2 := by
            intro q2; rw [lookupN_dir, hfa]
          refine ⟨by simp [lookupN, hf], ?_, ?_, ?_, ?_⟩
          · intro q hq
            cases q with
            | nil => exact absurd List.nil_prefix hq
            | cons k q2 =>
                by_cases hk : k = n
                · subst hk
                  rw [hstep2, lookupN_dir, hf,
                    mkdirChain_lookup_off (q0 :: rest) q2
                      (fun hc => hq (cons_pfx_cons.mpr ⟨rfl, hc⟩))]
                · rw [lookupN_dir, lookupN_dir, findChild_append]
                  cases hck : findChild cs k with
                  | some c0 => rfl
                  | none =>
                      rw [findChild_cons, if_neg (fun he => hk he.symm)]
                      rfl
          · intro q hq
            cases q with
            | nil => exact ⟨by simp [lookupN_nil], rfl⟩
            | cons k q2 =>
                obtain ⟨rfl, hq2⟩ := cons_pfx_cons.mp hq
                rw [hstep2]
                exact mkdirChain_lookup_pfx (q0 :: rest) q2 hq2
          · intro q hq hne
            cases q with
            | nil => exact Or.inl rfl
            | cons k q2 =>
                obtain ⟨rfl, hq2⟩ := cons_pfx_cons.mp hq
                rw [lookupN_dir, hf]
                exact Or.inr rfl
          · intro hw
            exact wfL_append_single cs n _ hw (mkdirChain_wf _) hf

/-! ### Toolbox: walk membership -/

theorem mem_of_findChild (cs : List (Name × Node)) (n : Name) (c : Node)
    (h : findChild cs n = some c) : (n, c) ∈ cs := by
  unfold findChild at h
  cases hf : cs.find? (fun e => e.1 == n) with
  | none => rw [hf] at h; simp at h
  | some e =>
      rw [hf] at h
      have hm := List.mem_of_find?_eq_some hf
      have hp := List.find?_some hf
      have he2 : e.2 = c := by simpa using h
      have he1 : e.1 = n := by simpa using hp
      have he : e = (n, c) := Prod.ext he1 he2
      exact he ▸ hm

theorem findChild_of_mem (cs : List (Name × Node)) (hw : wfL cs = true)
    (n : Name) (c : Node) (h : (n, c) ∈ cs) : findChild cs n = some c := by
  induction cs with
  | nil => simp at h
  | cons e rest ih =>
      obtain ⟨n0, c0⟩ := e
      rw [wfL_cons_iff] at hw
      obtain ⟨hany, -, hwr⟩ := hw
      rcases List.mem_cons.mp h with he | he
      · injection he with h1 h2
        subst h1; subst h2
        rw [findChild_cons, if_pos rfl]
      · have hne : n ≠ n0 := by
          rintro rfl
          have : rest.any (fun e => e.1 == n) = true :=
            List.any_eq_true.mpr ⟨(n, c), he, by simp⟩
          rw [this] at hany
          exact absurd hany (by simp)
        rw [findChild_cons, if_neg (fun hx => hne hx.symm)]
        exact ih hwr he

theorem wfL_keys_nodup (cs : List (Name × Node)) (hw : wfL cs = true) :
    (cs.map Prod.fst).Nodup := by
  induction cs with
  | nil => simp
  | cons e rest ih =>
      obtain ⟨n0, c0⟩ := e
      rw [wfL_cons_iff] at hw
      obtain ⟨hany, -, hwr⟩ := hw
      rw [List.map_cons, List.nodup_cons]
      refine ⟨?_, ih hwr⟩
      intro hmem
      obtain ⟨e, he, hee⟩ := List.mem_map.mp hmem
      have : rest.any (fun x => x.1 == n0) = true :=
        List.any_eq_true.mpr ⟨e, he, by simp [hee]⟩
      rw [this] at hany
      exact absurd hany (by simp)

theorem mem_filters (cs : List (Name × Node)) (e : Name × Node) :
    (e ∈ cs.filter (fun x => x.2.isDirB) ++ cs.filter (fun x => !x.2.isDirB)) ↔
      e ∈ cs := by
  simp only [List.mem_append, List.mem_filter]
  constructor
  · rintro (⟨h, -⟩ | ⟨h, -⟩) <;> exact h
  · intro h
    cases hd : e.2.isDirB
    · exact Or.inr ⟨h, rfl⟩
    · exact Or.inl ⟨h, rfl⟩

theorem walkTop_mem (cs : List (Name × Node)) (p : RPath) (nd : Node) :
    (p, nd) ∈ walkTop cs ↔ ∃ n1, p = [n1] ∧ (n1, nd) ∈ cs := by
  simp only [walkTop, List.mem_map]
  constructor
  · rintro ⟨e, he, heq⟩
    have h1 : [e.1] = p := congrArg Prod.fst heq
    have h2 : e.2 = nd := congrArg Prod.snd heq
    exact ⟨e.1, h1.symm, h2 ▸ (mem_filters cs e).mp he⟩
  · rintro ⟨n1, rfl, hmem⟩
    exact ⟨(n1, nd), (mem_filters cs _).mpr hmem, rfl⟩

mutual
/-- Membership in the flattened top-down walk: exactly the nonempty relative
paths that resolve below the node (sibling names must be unique). -/
theorem walkPreN_mem (t : Node) (hw : wfN t = true) (p : RPath) (nd : Node) :
    (p, nd) ∈ walkPreN t ↔ p ≠ [] ∧ lookupN t p = some nd := by
  match t with
  | .file fm fs fr =>
      constructor
      · intro h; simp [walkPreN] at h
      · rintro ⟨hne, hl⟩
        cases p with
        | nil => exact absurd rfl hne
        | cons k q => rw [lookupN_file] at hl; exact absurd hl (by simp)
  | .dir m s cs =>
      have hwl : wfL cs = true := hw
      constructor
      · intro h
        rcases List.mem_append.mp h with h1 | h1
        · obtain ⟨n1, rfl, hmem⟩ := (walkTop_mem cs p nd).mp h1
          refine ⟨by simp, ?_⟩
          rw [lookupN_dir, findChild_of_mem cs hwl n1 nd hmem]
          exact lookupN_nil nd
        · obtain ⟨n1, q2, c, rfl, hq2ne, hf, hl⟩ := (walkPreL_mem cs hwl p nd).mp h1
          refine ⟨by simp, ?_⟩
          rw [lookupN_dir, hf]
          exact hl
      · rintro ⟨hne, hl⟩
        cases p with
        | nil => exact absurd rfl hne
        | cons n1 q2 =>
            rw [lookupN_dir] at hl
            cases hf : findChild cs n1 with
            | none => rw [hf] at hl; exact absurd hl (by simp)
            | some c =>
                rw [hf] at hl
                change lookupN c q2 = some nd at hl
                show (n1 :: q2, nd) ∈ walkTop cs ++ walkPreL cs
                cases q2 with
                | nil =>
                    rw [lookupN_nil] at hl
                    injection hl with hl
                    exact List.mem_append.mpr (Or.inl ((walkTop_mem cs _ _).mpr
                      ⟨n1, rfl, hl ▸ mem_of_findChild cs n1 c hf⟩))
                | cons k q3 =>
                    exact List.mem_append.mpr (Or.inr ((walkPreL_mem cs hwl _ _).mpr
                      ⟨n1, k :: q3, c, rfl, by simp, hf, hl⟩))

theorem walkPreL_mem (cs : List (Name × Node)) (hw : wfL cs = true)
    (p : RPath) (nd : Node) :
    (p, nd) ∈ walkPreL cs ↔
      ∃ n1 q2 c, p = n1 :: q2 ∧ q2 ≠ [] ∧ findChild cs n1 = some c ∧
        lookupN c q2 = some nd := by
  match cs with
  | [] =>
      constructor
      · intro h; simp [walkPreL] at h
      · rintro ⟨n1, q2, c, rfl, hne, hf, hl⟩; simp [findChild] at hf
  | (n0, c0) :: rest =>
      obtain ⟨hany, hwc0, hwr⟩ := (wfL_cons_iff n0 c0 rest).mp hw
      constructor
      · intro h
        rcases List.mem_append.mp h with h1 | h1
        · by_cases hd : c0.isDirB = true
          · rw [if_pos hd] at h1
            obtain ⟨⟨q2, nd2⟩, hmem, heq⟩ := List.mem_map.mp h1
            have hp : n0 :: q2 = p := congrArg Prod.fst heq
            have hnd : nd2 = nd := congrArg Prod.snd heq
            subst hp; subst hnd
            obtain ⟨hq2ne, hlc⟩ := (walkPreN_mem c0 hwc0 q2 nd2).mp hmem
            exact ⟨n0, q2, c0, rfl, hq2ne, by rw [findChild_cons, if_pos rfl], hlc⟩
          · rw [if_neg hd] at h1
            simp at h1
        · obtain ⟨n1, q2, c, rfl, hne, hf, hl⟩ := (walkPreL_mem rest hwr p nd).mp h1
          have hne0 : n1 ≠ n0 := by
            rintro rfl
            have hmem := mem_of_findChild rest n1 c hf
            have : rest.any (fun e => e.1 == n1) = true :=
              List.any_eq_true.mpr ⟨(n1, c), hmem, by simp⟩
            rw [this] at hany
            exact absurd hany (by simp)
          refine ⟨n1, q2, c, rfl, hne, ?_, hl⟩
          rw [findChild_cons, if_neg (fun he => hne0 he.symm)]
          exact hf
      · rintro ⟨n1, q2, c, rfl, hne, hf, hl⟩
        show (n1 :: q2, nd) ∈ _ ++ walkPreL rest
        by_cases h0 : n1 = n0
        · subst h0
          have hcc : c = c0 := by
            rw [findChild_cons, if_pos rfl] at hf
            injection hf with hf
            exact hf.symm
          subst hcc
          have hd : c.isDirB = true := by
            cases c with
            | file f1 f2 f3 =>
                cases q2 with
                | nil => exact absurd rfl hne
                | cons k q3 =>
                    rw [lookupN_file] at hl
                    exact absurd hl (by simp)
            | dir d1 d2 d3 => rfl
          refine List.mem_append.mpr (Or.inl ?_)
          rw [if_pos hd]
          exact List.mem_map.mpr
            ⟨(q2, nd), (walkPreN_mem c hwc0 q2 nd).mpr ⟨hne, hl⟩, rfl⟩
        · have hf2 : findChild rest n1 = some c := by
            rw [findChild_cons, if_neg (fun he => h0 he.symm)] at hf
            exact hf
          exact List.mem_append.mpr (Or.inr ((walkPreL_mem rest hwr _ _).mpr
            ⟨n1, q2, c, rfl, hne, hf2, hl⟩))
end

mutual
/-- Membership in the flattened bottom-up walk: the same characterization as
for the top-down walk — only the order differs. -/
theorem walkPostN_mem (t : Node) (hw : wfN t = true) (p : RPath) (nd : Node) :
    (p, nd) ∈ walkPostN t ↔ p ≠ [] ∧ lookupN t p = some nd := by
  match t with
  | .file fm fs fr =>
      constructor
      · intro h; simp [walkPostN] at h
      · rintro ⟨hne, hl⟩
        cases p with
        | nil => exact absurd rfl hne
        | cons k q => rw [lookupN_file] at hl; exact absurd hl (by simp)
  | .dir m s cs =>
      have hwl : wfL cs = true := hw
      constructor
      · intro h
        rcases List.mem_append.mp h with h1 | h1
        · obtain ⟨n1, q2, c, rfl, hq2ne, hf, hl⟩ := (walkPostL_mem cs hwl p nd).mp h1
          refine ⟨by simp, ?_⟩
          rw [lookupN_dir, hf]
          exact hl
        · obtain ⟨n1, rfl, hmem⟩ := (walkTop_mem cs p nd).mp h1
          refine ⟨by simp, ?_⟩
          rw [lookupN_dir, findChild_of_mem cs hwl n1 nd hmem]
          exact lookupN_nil nd
      · rintro ⟨hne, hl⟩
        cases p with
        | nil => exact absurd rfl hne
        | cons n1 q2 =>
            rw [lookupN_dir] at hl
            cases hf : findChild cs n1 with
            | none => rw [hf] at hl; exact absurd hl (by simp)
            | some c =>
                rw [hf] at hl
                change lookupN c q2 = some nd at hl
                show (n1 :: q2, nd) ∈ walkPostL cs ++ walkTop cs
                cases q2 with
                | nil =>
                    rw [lookupN_nil] at hl
                    injection hl with hl
                    exact List.mem_append.mpr (Or.inr ((walkTop_mem cs _ _).mpr
                      ⟨n1, rfl, hl ▸ mem_of_findChild cs n1 c hf⟩))
                | cons k q3 =>
                    exact List.mem_append.mpr (Or.inl ((walkPostL_mem cs hwl _ _).mpr
                      ⟨n1, k :: q3, c, rfl, by simp, hf, hl⟩))

theorem walkPostL_mem (cs : List (Name × Node)) (hw : wfL cs = true)
    (p : RPath) (nd : Node) :
    (p, nd) ∈ walkPostL cs ↔
      ∃ n1 q2 c, p = n1 :: q2 ∧ q2 ≠ [] ∧ findChild cs n1 = some c ∧
        lookupN c q2 = some nd := by
  match cs with
  | [] =>
      constructor
      · intro h; simp [walkPostL] at h
      · rintro ⟨n1, q2, c, rfl, hne, hf, hl⟩; simp [findChild] at hf
  | (n0, c0) :: rest =>
      obtain ⟨hany, hwc0, hwr⟩ := (wfL_cons_iff n0 c0 rest).mp hw
      constructor
      · intro h
        rcases List.mem_append.mp h with h1 | h1
        · by_cases hd : c0.isDirB = true
          · rw [if_pos hd] at h1
            obtain ⟨⟨q2, nd2⟩, hmem, heq⟩ := List.mem_map.mp h1
            have hp : n0 :: q2 = p := congrArg Prod.fst heq
            have hnd : nd2 = nd := congrArg Prod.snd heq
            subst hp; subst hnd
            obtain ⟨hq2ne, hlc⟩ := (walkPostN_mem c0 hwc0 q2 nd2).mp hmem
            exact ⟨n0, q2, c0, rfl, hq2ne, by rw [findChild_cons, if_pos rfl], hlc⟩
          · rw [if_neg hd] at h1
            simp at h1
        · obtain ⟨n1, q2, c, rfl, hne, hf, hl⟩ := (walkPostL_mem rest hwr p nd).mp h1
          have hne0 : n1 ≠ n0 := by
            rintro rfl
            have hmem := mem_of_findChild rest n1 c hf
            have : rest.any (fun e => e.1 == n1) = true :=
              List.any_eq_true.mpr ⟨(n1, c), hmem, by simp⟩
            rw [this] at hany
            exact absurd hany (by simp)
          refine ⟨n1, q2, c, rfl, hne, ?_, hl⟩
          rw [findChild_cons, if_neg (fun he => hne0 he.symm)]
          exact hf
      · rintro ⟨n1, q2, c, rfl, hne, hf, hl⟩
        show (n1 :: q2, nd) ∈ _ ++ walkPostL rest
        by_cases h0 : n1 = n0
        · subst h0
          have hcc : c = c0 := by
            rw [findChild_cons, if_pos rfl] at hf
            injection hf with hf
            exact hf.symm
          subst hcc
          have hd : c.isDirB = true := by
            cases c with
            | file f1 f2 f3 =>
                cases q2 with
                | nil => exact absurd rfl hne
                | cons k q3 =>
                    rw [lookupN_file] at hl
                    exact absurd hl (by simp)
            | dir d1 d2 d3 => rfl
          refine List.mem_append.mpr (Or.inl ?_)
          rw [if_pos hd]
          exact List.mem_map.mpr
            ⟨(q2, nd), (walkPostN_mem c hwc0 q2 nd).mpr ⟨hne, hl⟩, rfl⟩
        · have hf2 : findChild rest n1 = some c := by
            rw [findChild_cons, if_neg (fun he => h0 he.symm)] at hf
            exact hf
          exact List.mem_append.mpr (Or.inr ((walkPostL_mem rest hwr _ _).mpr
            ⟨n1, q2, c, rfl, hne, hf2, hl⟩))
end

/-! ### Toolbox: traversal order -/

theorem singleton_pfx {x y : Name} : [x] <+: [y] ↔ x = y := by
  constructor
  · intro h
    obtain ⟨rfl, -⟩ := cons_pfx_cons.mp h
    rfl
  · rintro rfl
    exact List.prefix_refl _

theorem walkTop_pairwise (cs : List (Name × Node)) (hw : wfL cs = true) :
    List.Pairwise (fun a b => ¬ a.1 <+: b.1 ∧ ¬ b.1 <+: a.1) (walkTop cs) := by
  unfold walkTop
  rw [List.pairwise_map]
  have hperm :=
    (List.filter_append_perm (fun e : Name × Node => e.2.isDirB) cs).map Prod.fst
  have hnd : ((cs.filter (fun e => e.2.isDirB) ++
      cs.filter (fun e => !e.2.isDirB)).map Prod.fst).Nodup :=
    hperm.nodup_iff.mpr (wfL_keys_nodup cs hw)
  have hpw := List.pairwise_map.mp hnd
  exact hpw.imp (fun h =>
    ⟨fun hc => h (singleton_pfx.mp hc), fun hc => h (singleton_pfx.mp hc).symm⟩)

mutual
/-- The top-down walk visits a parent strictly before every item below it:
no later item's path is a strict or equal prefix of an earlier one. -/
theorem walkPreN_pairwise (t : Node) (hw : wfN t = true) :
    List.Pairwise (fun a b => ¬ b.1 <+: a.1) (walkPreN t) := by
  match t with
  | .file fm fs fr => exact List.Pairwise.nil
  | .dir m s cs =>
      have hwl : wfL cs = true := hw
      show List.Pairwise _ (walkTop cs ++ walkPreL cs)
      rw [List.pairwise_append]
      refine ⟨(walkTop_pairwise cs hwl).imp (fun h => h.2),
        walkPreL_pairwise cs hwl, ?_⟩
      intro a ha b hb
      obtain ⟨n1, ha1, -⟩ := (walkTop_mem cs a.1 a.2).mp ha
      obtain ⟨n2, q2, c, hb1, hq2, -, -⟩ := (walkPreL_mem cs hwl b.1 b.2).mp hb
      rw [ha1, hb1]
      intro hc
      obtain ⟨-, hq⟩ := cons_pfx_cons.mp hc
      rw [List.prefix_nil] at hq
      exact hq2 hq

theorem walkPreL_pairwise (cs : List (Name × Node)) (hw : wfL cs = true) :
    List.Pairwise (fun a b => ¬ b.1 <+: a.1) (walkPreL cs) := by
  match cs with
  | [] => exact List.Pairwise.nil
  | (n0, c0) :: rest =>
      obtain ⟨hany, hwc0, hwr⟩ := (wfL_cons_iff n0 c0 rest).mp hw
      show List.Pairwise _
        ((if c0.isDirB then (walkPreN c0).map (fun q => (n0 :: q.1, q.2)) else []) ++
          walkPreL rest)
      rw [List.pairwise_append]
      refine ⟨?_, walkPreL_pairwise rest hwr, ?_⟩
      · by_cases hd : c0.isDirB = true
        · rw [if_pos hd, List.pairwise_map]
          exact (walkPreN_pairwise c0 hwc0).imp (fun h hc =>
            h (cons_pfx_cons.mp hc).2)
        · rw [if_neg hd]
          exact List.Pairwise.nil
      · intro a ha b hb
        by_cases hd : c0.isDirB = true
        · rw [if_pos hd] at ha
          obtain ⟨⟨x, nd⟩, -, haeq⟩ := List.mem_map.mp ha
          have ha1 : n0 :: x = a.1 := congrArg Prod.fst haeq
          obtain ⟨n2, q2, c, hb1, -, hf, -⟩ := (walkPreL_mem rest hwr b.1 b.2).mp hb
          have hn2 : n2 ≠ n0 := by
            rintro rfl
            have hmem := mem_of_findChild rest n2 c hf
            have : rest.any (fun e => e.1 == n2) = true :=
              List.any_eq_true.mpr ⟨(n2, c), hmem, by simp⟩
            rw [this] at hany
            exact absurd hany (by simp)
          rw [← ha1, hb1]
          intro hc
          exact hn2 (cons_pfx_cons.mp hc).1
        · rw [if_neg hd] at ha
          simp at ha
end

mutual
/-- The bottom-up walk visits every item strictly before its parent: no
earlier item's path is a strict or equal prefix of a later one. -/
theorem walkPostN_pairwise (t : Node) (hw : wfN t = true) :
    List.Pairwise (fun a b => ¬ a.1 <+: b.1) (walkPostN t) := by
  match t with
  | .file fm fs fr => exact List.Pairwise.nil
  | .dir m s cs =>
      have hwl : wfL cs = true := hw
      show List.Pairwise _ (walkPostL cs ++ walkTop cs)
      rw [List.pairwise_append]
      refine ⟨walkPostL_pairwise cs hwl,
        (walkTop_pairwise cs hwl).imp (fun h => h.1), ?_⟩
      intro a ha b hb
      obtain ⟨n1, q2, c, ha1, hq2, -, -⟩ := (walkPostL_mem cs hwl a.1 a.2).mp ha
      obtain ⟨n2, hb1, -⟩ := (walkTop_mem cs b.1 b.2).mp hb
      rw [ha1, hb1]
      intro hc
      obtain ⟨-, hq⟩ := cons_pfx_cons.mp hc
      rw [List.prefix_nil] at hq
      exact hq2 hq

theorem walkPostL_pairwise (cs : List (Name × Node)) (hw : wfL cs = true) :
    List.Pairwise (fun a b => ¬ a.1 <+: b.1) (walkPostL cs) := by
  match cs with
  | [] => exact List.Pairwise.nil
  | (n0, c0) :: rest =>
      obtain ⟨hany, hwc0, hwr⟩ := (wfL_cons_iff n0 c0 rest).mp hw
      show List.Pairwise _
        ((if c0.isDirB then (walkPostN c0).map (fun q => (n0 :: q.1, q.2)) else []) ++
          walkPostL rest)
      rw [List.pairwise_append]
      refine ⟨?_, walkPostL_pairwise rest hwr, ?_⟩
      · by_cases hd : c0.isDirB = true
        · rw [if_pos hd, List.pairwise_map]
          exact (walkPostN_pairwise c0 hwc0).imp (fun h hc =>
            h (cons_pfx_cons.mp hc).2)
        · rw [if_neg hd]
          exact List.Pairwise.nil
      · intro a ha b hb
        by_cases hd : c0.isDirB = true
        · rw [if_pos hd] at ha
          obtain ⟨⟨x, nd⟩, -, haeq⟩ := List.mem_map.mp ha
          have ha1 : n0 :: x = a.1 := congrArg Prod.fst haeq
          obtain ⟨n2, q2, c, hb1, -, hf, -⟩ := (walkPostL_mem rest hwr b.1 b.2).mp hb
          have hn2 : n2 ≠ n0 := by
            rintro rfl
            have hmem := mem_of_findChild rest n2 c hf
            have : rest.any (fun e => e.1 == n2) = true :=
              List.any_eq_true.mpr ⟨(n2, c), hmem, by simp⟩
            rw [this] at hany
            exact absurd hany (by simp)
          rw [← ha1, hb1]
          intro hc
          exact hn2 ((cons_pfx_cons.mp hc).1).symm
        · rw [if_neg hd] at ha
          simp at ha
end

/-! ### Removal phase -/

theorem items_to_remove_mem (src : Option Node) (root : Node)
    (hw : wfN root = true) (q : RPath) :
    q ∈ items_to_remove src root ↔
      q ≠ [] ∧ (lookupN root q).isSome = true ∧
        path_exists (lookupP src q) = false := by
  unfold items_to_remove
  rw [List.mem_filterMap]
  constructor
  · rintro ⟨⟨p, nd⟩, hmem, hval⟩
    by_cases hex : path_exists (lookupP src p) = true
    · rw [if_pos hex] at hval
      exact absurd hval (by simp)
    · rw [if_neg hex] at hval
      injection hval with hval
      subst hval
      obtain ⟨hne, hl⟩ := (walkPostN_mem root hw p nd).mp hmem
      exact ⟨hne, by rw [hl]; rfl, Bool.not_eq_true _ ▸ hex⟩
  · rintro ⟨hne, hsome, hnex⟩
    obtain ⟨nd, hnd⟩ := Option.isSome_iff_exists.mp hsome
    refine ⟨(q, nd), (walkPostN_mem root hw q nd).mpr ⟨hne, hnd⟩, ?_⟩
    rw [if_neg (by rw [hnex]; simp)]

theorem items_to_remove_pairwise (src : Option Node) (root : Node)
    (hw : wfN root = true) :
    List.Pairwise (fun a b => ¬ a <+: b) (items_to_remove src root) := by
  unfold items_to_remove
  refine List.Pairwise.filterMap _ ?_ (walkPostN_pairwise root hw)
  intro a b hr x hx y hy
  by_cases hea : path_exists (lookupP src a.1) = true
  · rw [if_pos hea] at hx; simp at hx
  · rw [if_neg hea] at hx
    by_cases heb : path_exists (lookupP src b.1) = true
    · rw [if_pos heb] at hy; simp at hy
    · rw [if_neg heb] at hy
      simp only [Option.mem_def] at hx hy
      injection hx with hx
      injection hy with hy
      subst hx; subst hy
      exact hr

theorem os_rmdir_nonempty : ∀ (t : Node) (p : RPath) (dm ds : Nat)
    (e0 : Name × Node) (cs2 : List (Name × Node)),
    lookupN t p = some (.dir dm ds (e0 :: cs2)) → p ≠ [] →
    os_rmdir t p = .error "OSError: Directory not empty"
  | t, [], _, _, _, _, _, hne => absurd rfl hne
  | .file fm fs fr, n :: p, dm, ds, e0, cs2, h, _ => by
      rw [lookupN_file] at h; exact absurd h (by simp)
  | .dir m s cs, [n], dm, ds, e0, cs2, h, _ => by
      rw [lookupN_dir] at h
      cases hf : findChild cs n with
      | none => rw [hf] at h; exact absurd h (by simp)
      | some c =>
          rw [hf] at h
          change lookupN c [] = _ at h
          rw [lookupN_nil] at h
          injection h with h
          subst h
          simp [os_rmdir, hf]
  | .dir m s cs, n :: q0 :: rest, dm, ds, e0, cs2, h, _ => by
      rw [lookupN_dir] at h
      cases hf : findChild cs n with
      | none => rw [hf] at h; exact absurd h (by simp)
      | some c =>
          rw [hf] at h
          change lookupN c (q0 :: rest) = _ at h
          have IH := os_rmdir_nonempty c (q0 :: rest) dm ds e0 cs2 h (by simp)
          simp [os_rmdir, hf, IH, Except.map]

theorem os_remove_file : ∀ (t : Node) (p : RPath) (fm fs : Nat) (fr : Bool),
    lookupN t p = some (.file fm fs fr) → p ≠ [] →
    ∃ t2, os_remove t p = .ok t2
  | t, [], _, _, _, _, hne => absurd rfl hne
  | .file gm gs gr, n :: p, fm, fs, fr, h, _ => by
      rw [lookupN_file] at h; exact absurd h (by simp)
  | .dir m s cs, [n], fm, fs, fr, h, _ => by
      rw [lookupN_dir] at h
      cases hf : findChild cs n with
      | none => rw [hf] at h; exact absurd h (by simp)
      | some c =>
          rw [hf] at h
          change lookupN c [] = _ at h
          rw [lookupN_nil] at h
          injection h with h
          subst h
          exact ⟨.dir m s (delChild cs n), by simp [os_remove, hf]⟩
  | .dir m s cs, n :: q0 :: rest, fm, fs, fr, h, _ => by
      rw [lookupN_dir] at h
      cases hf : findChild cs n with
      | none => rw [hf] at h; exact absurd h (by simp)
      | some c =>
          rw [hf] at h
          change lookupN c (q0 :: rest) = _ at h
          obtain ⟨c2, hc2⟩ := os_remove_file c (q0 :: rest) fm fs fr h (by simp)
          exact ⟨.dir m s (setChild cs n c2), by simp [os_remove, hf, hc2, Except.map]⟩

theorem os_rmdir_empty : ∀ (t : Node) (p : RPath) (dm ds : Nat),
    lookupN t p = some (.dir dm ds []) → p ≠ [] →
    ∃ t2, os_rmdir t p = .ok t2
  | t, [], _, _, _, hne => absurd rfl hne
  | .file gm gs gr, n :: p, dm, ds, h, _ => by
      rw [lookupN_file] at h; exact absurd h (by simp)
  | .dir m s cs, [n], dm, ds, h, _ => by
      rw [lookupN_dir] at h
      cases hf : findChild cs n with
      | none => rw [hf] at h; exact absurd h (by simp)
      | some c =>
          rw [hf] at h
          change lookupN c [] = _ at h
          rw [lookupN_nil] at h
          injection h with h
          subst h
          exact ⟨.dir m s (delChild cs n), by simp [os_rmdir, hf]⟩
  | .dir m s cs, n :: q0 :: rest, dm, ds, h, _ => by
      rw [lookupN_dir] at h
      cases hf : findChild cs n with
      | none => rw [hf] at h; exact absurd h (by simp)
      | some c =>
          rw [hf] at h
          change lookupN c (q0 :: rest) = _ at h
          obtain ⟨c2, hc2⟩ := os_rmdir_empty c (q0 :: rest) dm ds h (by simp)
          exact ⟨.dir m s (setChild cs n c2), by simp [os_rmdir, hf, hc2, Except.map]⟩

theorem remove_step_outcome (t : Node) (p : RPath) :
    (remove_step t p).2 = .infoRemoved p ∨
      ∃ e, (remove_step t p).2 = .errorRemove p e := by
  unfold remove_step
  by_cases hd : path_isdir (lookupN t p) = true
  · rw [if_pos hd]
    cases os_rmdir t p with
    | ok t2 => exact Or.inl rfl
    | error e => exact Or.inr ⟨e, rfl⟩
  · rw [if_neg hd]
    cases os_remove t p with
    | ok t2 => exact Or.inl rfl
    | error e => exact Or.inr ⟨e, rfl⟩

theorem runRemovals_msgs : ∀ (t : Node) (rem : List RPath),
    List.Forall₂
      (fun p o => o = Outcome.infoRemoved p ∨ ∃ e, o = Outcome.errorRemove p e)
      rem (runRemovals t rem).2
  | _, [] => List.Forall₂.nil
  | t, p :: rest =>
      List.Forall₂.cons (remove_step_outcome t p)
        (runRemovals_msgs (remove_step t p).1 rest)

theorem forall2_mem_right {α β : Type} {R : α → β → Prop} :
    ∀ {l1 : List α} {l2 : List β}, List.Forall₂ R l1 l2 → ∀ b ∈ l2, ∃ a ∈ l1, R a b
  | _, _, List.Forall₂.nil, b, hb => by simp at hb
  | _, _, List.Forall₂.cons h hs, b, hb => by
      rcases List.mem_cons.mp hb with hb1 | hb2
      · subst hb1
        exact ⟨_, List.mem_cons_self _ _, h⟩
      · obtain ⟨a, ha, hr⟩ := forall2_mem_right hs b hb2
        exact ⟨a, List.mem_cons_of_mem _ ha, hr⟩

/-- C5 (confirmed): the removal phase slates exactly the destination items
whose relative path does not pass the `os.path.exists` check against the
source root; the slated list is in bottom-up order (no item is followed by
one of its descendants, so children precede parents); every slated item
produces exactly one outcome record naming its path (the pass continues
regardless of failures); a slated file is removed unconditionally; a slated
empty directory is removed; and a slated non-empty directory is left in
place with a per-item error outcome. -/
theorem removal_phase_spec (src : Option Node) (root : Node) (hw : wfN root = true) :
    (∀ q, q ∈ items_to_remove src root ↔
      q ≠ [] ∧ (lookupN root q).isSome = true ∧
        path_exists (lookupP src q) = false) ∧
    List.Pairwise (fun a b => ¬ a <+: b) (items_to_remove src root) ∧
    (∀ (t : Node) (rem : List RPath),
      (runRemovals t rem).2.length = rem.length) ∧
    (∀ (t : Node) (rem : List RPath), ∀ o ∈ (runRemovals t rem).2, ∃ p ∈ rem,
      o = Outcome.infoRemoved p ∨ ∃ e, o = Outcome.errorRemove p e) ∧
    (∀ (t : Node) (p : RPath) (fm fs : Nat) (fr : Bool),
      lookupN t p = some (.file fm fs fr) → p ≠ [] →
      ∃ t2, remove_step t p = (t2, Outcome.infoRemoved p) ∧ lookupN t2 p = none) ∧
    (∀ (t : Node) (p : RPath) (dm ds : Nat),
      lookupN t p = some (.dir dm ds []) → p ≠ [] →
      ∃ t2, remove_step t p = (t2, Outcome.infoRemoved p) ∧ lookupN t2 p = none) ∧
    (∀ (t : Node) (p : RPath) (dm ds : Nat) (e0 : Name × Node)
      (cs2 : List (Name × Node)),
      lookupN t p = some (.dir dm ds (e0 :: cs2)) → p ≠ [] →
      remove_step t p = (t, Outcome.errorRemove p "OSError: Directory not empty")) := by
  refine ⟨items_to_remove_mem src root hw, items_to_remove_pairwise src root hw,
    ?_, ?_, ?_, ?_, ?_⟩
  · intro t rem
    exact ((runRemovals_msgs t rem).length_eq).symm
  · intro t rem o ho
    exact forall2_mem_right (runRemovals_msgs t rem) o ho
  · intro t p fm fs fr hl hne
    obtain ⟨t2, ht2⟩ := os_remove_file t p fm fs fr hl hne
    have hspec := os_remove_ok_spec t t2 p ht2
    have hnd : ¬ path_isdir (lookupN t p) = true := by
      rw [hl]; simp [path_isdir]
    refine ⟨t2, ?_, hspec.2.1 p (List.prefix_refl p)⟩
    unfold remove_step
    rw [if_neg hnd, ht2]
  · intro t p dm ds hl hne
    obtain ⟨t2, ht2⟩ := os_rmdir_empty t p dm ds hl hne
    have hspec := os_rmdir_ok_spec t t2 p ht2
    have hd : path_isdir (lookupN t p) = true := by
      rw [hl]; rfl
    refine ⟨t2, ?_, hspec.2.1 p (List.prefix_refl p)⟩
    unfold remove_step
    rw [if_pos hd, ht2]
  · intro t p dm ds e0 cs2 hl hne
    have herr := os_rmdir_nonempty t p dm ds e0 cs2 hl hne
    have hd : path_isdir (lookupN t p) = true := by
      rw [hl]; rfl
    unfold remove_step
    rw [if_pos hd, herr]

/-- Witness for `removal_phase_spec` at a concrete state: with an empty
source and a destination holding the file `b`, the path `b` is slated for
removal, and removing it yields the emptied destination with one
informational outcome naming `b`. -/
theorem removal_phase_spec_witness :
    ["b"] ∈ items_to_remove (some (Node.dir 0 0 []))
      (Node.dir 0 0 [("b", Node.file 1 1 true)]) ∧
    (runRemovals (Node.dir 0 0 [("b", Node.file 1 1 true)]) [["b"]]).2.length = 1 :=
  ⟨((removal_phase_spec (some (Node.dir 0 0 []))
      (Node.dir 0 0 [("b", Node.file 1 1 true)]) rfl).1 ["b"]).mpr
    ⟨by simp, rfl, rfl⟩,
   (removal_phase_spec (some (Node.dir 0 0 []))
      (Node.dir 0 0 [("b", Node.file 1 1 true)]) rfl).2.2.1
     (Node.dir 0 0 [("b", Node.file 1 1 true)]) [["b"]]⟩

/-! ### Creation phase: per-item semantics -/

theorem except_bind_ok {α β : Type} (a : α) (f : α → Except String β) :
    ((Except.ok a : Except String α) >>= f) = f a := rfl

/-- C6 amended (theorem): the creation loop visits source items in
pre-order — no item is preceded by one of its descendants; an item whose
equivalence check reports no write needed produces no outcome and no
change; a needing-write source directory is created at its destination
path together with all missing intermediate directories, with one
informational outcome, or leaves one error outcome; a needing-write source
file whose destination path does not currently hold a directory is copied
onto that path with the source's mtime and size preserved, with one
informational outcome, or leaves one error outcome.  (When the destination
path does hold a directory, the copy lands inside it — see the
counterexample.) -/
theorem creation_phase_spec (src : Option Node) (hw : wfP src = true) :
    List.Pairwise (fun a b => ¬ b <+: a) (srcItems src) ∧
    (∀ (t : Node) (p : RPath),
      same_file_check (lookupP src p) (lookupN t p) = .ok false →
      create_step src t p = .ok (t, [])) ∧
    (∀ (t : Node) (p : RPath),
      same_file_check (lookupP src p) (lookupN t p) = .ok true →
      path_isdir (lookupP src p) = true →
      (∃ t2, os_makedirs t p = .ok t2 ∧
        create_step src t p = .ok (t2, [Outcome.infoCreatedDir p]) ∧
        (∀ q, q <+: p →
          (lookupN t2 q).isSome = true ∧ path_isdir (lookupN t2 q) = true)) ∨
      (∃ e, create_step src t p = .ok (t, [Outcome.errorCreateDir p e]))) ∧
    (∀ (t : Node) (p : RPath) (m s : Nat),
      same_file_check (lookupP src p) (lookupN t p) = .ok true →
      lookupP src p = some (.file m s true) →
      path_isdir (lookupN t p) = false →
      (∃ t2, create_step src t p = .ok (t2, [Outcome.infoCopied p]) ∧
        lookupN t2 p = some (.file m s true)) ∨
      (∃ e, create_step src t p = .ok (t, [Outcome.errorCopy p e]))) := by
  refine ⟨?_, ?_, ?_, ?_⟩
  · unfold srcItems
    cases src with
    | none => exact List.Pairwise.nil
    | some n =>
        rw [List.pairwise_map]
        exact walkPreN_pairwise n hw
  · intro t p hsc
    unfold create_step
    rw [hsc]
    rfl
  · intro t p hsc hd
    cases hmk : os_makedirs t p with
    | ok t2 =>
        refine Or.inl ⟨t2, rfl, ?_, (os_makedirs_ok_spec t t2 p hmk).2.2.1⟩
        unfold create_step
        rw [hsc, except_bind_ok]
        rw [if_pos rfl, if_pos hd, hmk]
        rfl
    | error e =>
        refine Or.inr ⟨e, ?_⟩
        unfold create_step
        rw [hsc, except_bind_ok]
        rw [if_pos rfl, if_pos hd, hmk]
        rfl
  · intro t p m s hsc hsrc hnd
    have hsd : path_isdir (lookupP src p) = false := by rw [hsrc]; rfl
    have hcp : shutil_copy2 (lookupP src p) t p = putFile t p m s := by
      rw [hsrc]
      show (let target := if path_isdir (lookupN t p) = true
              then p ++ [p.getLastD ""] else p
            putFile t target m s) = putFile t p m s
      rw [if_neg (by rw [hnd]; simp)]
    have hstep : create_step src t p =
        match putFile t p m s with
        | .ok t2 => .ok (t2, [Outcome.infoCopied p])
        | .error e => .ok (t, [Outcome.errorCopy p e]) := by
      unfold create_step
      rw [hsc, except_bind_ok]
      rw [if_pos rfl, if_neg (by rw [hsd]; simp), hcp]
      rfl
    cases hpf : putFile t p m s with
    | ok t2 =>
        refine Or.inl ⟨t2, ?_, (putFile_ok_spec t t2 p m s hpf).1⟩
        rw [hstep, hpf]
    | error e =>
        refine Or.inr ⟨e, ?_⟩
        rw [hstep, hpf]

/-- Witness for `creation_phase_spec`: a source file whose destination copy
already matches (same mtime 5, size 7) produces no outcome and no change. -/
theorem creation_phase_spec_witness :
    create_step (some (Node.dir 0 0 [("a", Node.file 5 7 true)]))
        (Node.dir 9 9 [("a", Node.file 5 7 true)]) ["a"] =
      .ok (Node.dir 9 9 [("a", Node.file 5 7 true)], []) :=
  (creation_phase_spec (some (Node.dir 0 0 [("a", Node.file 5 7 true)])) rfl).2.1
    (Node.dir 9 9 [("a", Node.file 5 7 true)]) ["a"] rfl

/-- C9 amended (theorem): a total characterization of the log sink over
every file state.  When the log file exists and appending works, the sink
appends the timestamped header followed by one line per outcome, or the
single no-changes line when the outcome sequence is empty; a failed append
on an existing file leaves its content unchanged and adds a console error
line.  When the log file was missing: a successful creation appends the
created-log informational line to the outcome list itself (so the body is
never the no-changes line), and if the subsequent append then fails the
newly created log file is left empty; a failed creation is reported as a
console error line only, after which the append attempt still runs and —
since `open(log, "a")` creates a missing file — a working append creates
the log and writes the section (without the created-log line), while a
failed append leaves the file absent.  In every case the sink returns
normally (never aborts the pass). -/
theorem update_log_spec (content : List String) (stamp logPath : String)
    (lf : LogFile) :
    (lf.present = true → lf.appendable = true →
      update_log content stamp logPath lf =
        (LogFile.mk true
          (lf.data ++ (log_header stamp ++
            (if content.isEmpty then no_changes_line ++ "\n"
             else String.intercalate "\n" content)))
          lf.creatable true,
         [log_header stamp] ++
          (if content.isEmpty then [no_changes_line]
           else [String.intercalate "\n" content]))) ∧
    (lf.present = true → lf.appendable = false →
      update_log content stamp logPath lf =
        (lf,
         [log_header stamp] ++
          (if content.isEmpty then [no_changes_line]
           else [String.intercalate "\n" content]) ++
          ["Error: Failed to open " ++ logPath ++ " for writing."])) ∧
    (lf.present = false → lf.creatable = true → lf.appendable = true →
      update_log content stamp logPath lf =
        (LogFile.mk true
          (log_header stamp ++
            String.intercalate "\n" (content ++ [created_log_line logPath]))
          true true,
         [log_header stamp,
          String.intercalate "\n" (content ++ [created_log_line logPath])])) ∧
    (lf.present = false → lf.creatable = true → lf.appendable = false →
      update_log content stamp logPath lf =
        (LogFile.mk true "" true false,
         [log_header stamp,
          String.intercalate "\n" (content ++ [created_log_line logPath]),
          "Error: Failed to open " ++ logPath ++ " for writing."])) ∧
    (lf.present = false → lf.creatable = false → lf.appendable = true →
      update_log content stamp logPath lf =
        (LogFile.mk true
          (log_header stamp ++
            (if content.isEmpty then no_changes_line ++ "\n"
             else String.intercalate "\n" content))
          false true,
         ["Error: Log at " ++ logPath ++ " did not exist and failed to create it.",
          log_header stamp] ++
          (if content.isEmpty then [no_changes_line]
           else [String.intercalate "\n" content]))) ∧
    (lf.present = false → lf.creatable = false → lf.appendable = false →
      update_log content stamp logPath lf =
        (lf,
         ["Error: Log at " ++ logPath ++ " did not exist and failed to create it.",
          log_header stamp] ++
          (if content.isEmpty then [no_changes_line]
           else [String.intercalate "\n" content]) ++
          ["Error: Failed to open " ++ logPath ++ " for writing."])) := by
  obtain ⟨pres, dat, cre, app⟩ := lf
  have hne : (content ++ [created_log_line logPath]).isEmpty = false := by
    cases content <;> rfl
  refine ⟨?_, ?_, ?_, ?_, ?_, ?_⟩
  · intro h1 h2
    subst h1; subst h2
    simp [update_log, String.append_assoc]
  · intro h1 h2
    subst h1; subst h2
    simp [update_log]
  · intro h1 h2 h3
    subst h1; subst h2; subst h3
    simp [update_log, hne]
  · intro h1 h2 h3
    subst h1; subst h2; subst h3
    simp [update_log, hne]
  · intro h1 h2 h3
    subst h1; subst h2; subst h3
    simp [update_log]
  · intro h1 h2 h3
    subst h1; subst h2; subst h3
    simp [update_log]

/-- Witness for `update_log_spec`, exercising the creation-failure case:
the log is missing and uncreatable but appendable, so the creation error
goes to the console and the append-mode open then creates the log with the
header and the no-changes body. -/
theorem update_log_spec_witness :
    update_log [] "T" "log" (LogFile.mk false "" false true) =
      (LogFile.mk true
        (log_header "T" ++
          (if ([] : List String).isEmpty then no_changes_line ++ "\n"
           else String.intercalate "\n" ([] : List String)))
        false true,
       ["Error: Log at " ++ "log" ++ " did not exist and failed to create it.",
        log_header "T"] ++
        (if ([] : List String).isEmpty then [no_changes_line]
         else [String.intercalate "\n" ([] : List String)])) :=
  (update_log_spec [] "T" "log"
    (LogFile.mk false "" false true)).2.2.2.2.1 rfl rfl rfl

/-! ### Preservation lemmas -/

theorem except_bind_error {α β : Type} (e : String) (f : α → Except String β) :
    ((Except.error e : Except String α) >>= f) = .error e := rfl

theorem path_exists_of_isdir (x : Option Node) (h : path_isdir x = true) :
    path_exists x = true := by
  match x with
  | some (.dir ..) => rfl
  | some (.file ..) => exact absurd h (by simp [path_isdir])
  | none => exact absurd h (by simp [path_isdir])

theorem isSome_of_isdir (x : Option Node) (h : path_isdir x = true) :
    x.isSome = true := by
  match x with
  | some (.dir ..) => rfl
  | some (.file ..) => exact absurd h (by simp [path_isdir])
  | none => exact absurd h (by simp [path_isdir])

theorem runRemovals_preserve : ∀ (t : Node) (rem : List RPath) (p : RPath),
    (∀ q ∈ rem, ¬ q <+: p ∧ ¬ p <+: q) →
    lookupN (runRemovals t rem).1 p = lookupN t p
  | _, [], _, _ => rfl
  | t, q :: rest, p, h => by
      have hq := h q (List.mem_cons_self q rest)
      have hstep : lookupN (remove_step t q).1 p = lookupN t p := by
        unfold remove_step
        by_cases hd : path_isdir (lookupN t q) = true
        · rw [if_pos hd]
          cases hok : os_rmdir t q with
          | ok t2 => exact (os_rmdir_ok_spec t t2 q hok).2.2.1 p hq.2 hq.1
          | error e => rfl
        · rw [if_neg hd]
          cases hok : os_remove t q with
          | ok t2 => exact (os_remove_ok_spec t t2 q hok).2.2.1 p hq.2 hq.1
          | error e => rfl
      have ht : (runRemovals t (q :: rest)).1 =
          (runRemovals (remove_step t q).1 rest).1 := rfl
      rw [ht, runRemovals_preserve (remove_step t q).1 rest p
        (fun q2 hq2 => h q2 (List.mem_cons_of_mem q hq2)), hstep]

theorem runRemovals_mentions (t : Node) (rem : List RPath) (p : RPath)
    (h : ∀ q ∈ rem, q ≠ p) :
    ∀ o ∈ (runRemovals t rem).2, Outcome.mentions o p = false := by
  intro o ho
  obtain ⟨q, hq, hor⟩ := forall2_mem_right (runRemovals_msgs t rem) o ho
  have hne : q ≠ p := h q hq
  rcases hor with rfl | ⟨e, rfl⟩
  · exact beq_eq_false_iff_ne.mpr hne
  · exact beq_eq_false_iff_ne.mpr hne

theorem putFile_preserve_off (t t2 : Node) (tg p : RPath) (m s : Nat)
    (hpf : putFile t tg m s = .ok t2) (hne : p ≠ tg)
    (hfile : path_isdir (lookupN t p) = false)
    (hsome : (lookupN t p).isSome = true) :
    lookupN t2 p = lookupN t p := by
  have spec := putFile_ok_spec t t2 tg m s hpf
  by_cases h1 : p <+: tg
  · exfalso
    have hh := spec.2.2.2.1 p h1 hne
    rw [hh.2.1] at hfile
    simp at hfile
  · by_cases h2 : tg <+: p
    · exfalso
      have hh := spec.2.2.1 p h2 hne
      rw [hh.2] at hsome
      simp at hsome
    · exact spec.2.1 p h1 h2

theorem os_makedirs_preserve_off (t t2 : Node) (tg p : RPath)
    (hmk : os_makedirs t tg = .ok t2)
    (hfile : path_isdir (lookupN t p) = false)
    (hsome : (lookupN t p).isSome = true) :
    lookupN t2 p = lookupN t p := by
  have spec := os_makedirs_ok_spec t t2 tg hmk
  by_cases h1 : p <+: tg
  · exfalso
    by_cases he : p = tg
    · subst he
      rw [spec.1] at hsome
      simp at hsome
    · rcases spec.2.2.2.1 p h1 he with hh | hh
      · rw [hh] at hfile; simp at hfile
      · rw [hh] at hsome; simp at hsome
  · exact spec.2.1 p h1

theorem create_step_preserve_dirfile (src : Option Node) (p : RPath)
    (hsrc : path_isdir (lookupP src p) = true)
    (t : Node) (fm fs : Nat) (hat : lookupN t p = some (.file fm fs true))
    (q : RPath) (t1 : Node) (os1 : List Outcome)
    (hstep : create_step src t q = .ok (t1, os1)) :
    lookupN t1 p = some (.file fm fs true) ∧ ∀ o ∈ os1, o.mentions p = false := by
  by_cases hqp : q = p
  · subst hqp
    have hsv : ∃ dm ds dcs, lookupP src q = some (.dir dm ds dcs) := by
      cases hx : lookupP src q with
      | none => rw [hx] at hsrc; simp [path_isdir] at hsrc
      | some nd =>
          cases nd with
          | dir dm ds dcs => exact ⟨dm, ds, dcs, rfl⟩
          | file a b c => rw [hx] at hsrc; simp [path_isdir] at hsrc
    obtain ⟨dm, ds, dcs, hsv⟩ := hsv
    have hsc : same_file_check (lookupP src q) (lookupN t q) = .ok false := by
      rw [hsv, hat]
      rfl
    unfold create_step at hstep
    rw [hsc, except_bind_ok] at hstep
    rw [if_neg (by simp)] at hstep
    injection hstep with hstep
    injection hstep with h1 h2
    subst h1; subst h2
    exact ⟨hat, by simp⟩
  · unfold create_step at hstep
    cases hsc : same_file_check (lookupP src q) (lookupN t q) with
    | error e =>
        rw [hsc, except_bind_error] at hstep
        exact absurd hstep (by simp)
    | ok b =>
        rw [hsc, except_bind_ok] at hstep
        cases b with
        | false =>
            rw [if_neg (by simp)] at hstep
            injection hstep with hstep
            injection hstep with h1 h2
            subst h1; subst h2
            exact ⟨hat, by simp⟩
        | true =>
            rw [if_pos rfl] at hstep
            have hfile : path_isdir (lookupN t p) = false := by
              rw [hat]; rfl
            have hsome : (lookupN t p).isSome = true := by rw [hat]; rfl
            by_cases hd : path_isdir (lookupP src q) = true
            · rw [if_pos hd] at hstep
              cases hmk : os_makedirs t q with
              | ok t2 =>
                  rw [hmk] at hstep
                  injection hstep with hstep
                  injection hstep with h1 h2
                  subst h1; subst h2
                  refine ⟨?_, ?_⟩
                  · rw [os_makedirs_preserve_off t t2 q p hmk hfile hsome, hat]
                  · intro o ho
                    rcases List.mem_singleton.mp ho with rfl
                    exact beq_eq_false_iff_ne.mpr hqp
              | error e =>
                  rw [hmk] at hstep
                  injection hstep with hstep
                  injection hstep with h1 h2
                  subst h1; subst h2
                  refine ⟨hat, ?_⟩
                  intro o ho
                  rcases List.mem_singleton.mp ho with rfl
                  exact beq_eq_false_iff_ne.mpr hqp
            · rw [if_neg hd] at hstep
              cases hcp : shutil_copy2 (lookupP src q) t q with
              | ok t2 =>
                  rw [hcp] at hstep
                  injection hstep with hstep
                  injection hstep with h1 h2
                  subst h1; subst h2
                  refine ⟨?_, ?_⟩
                  · -- analyze the copy's target
                    unfold shutil_copy2 at hcp
                    cases hsq : lookupP src q with
                    | none => rw [hsq] at hcp; exact absurd hcp (by simp)
                    | some nd =>
                        rw [hsq] at hcp
                        cases nd with
                        | dir a b c => exact absurd hcp (by simp)
                        | file m2 s2 r2 =>
                            cases r2 with
                            | false => exact absurd hcp (by simp)
                            | true =>
                                by_cases htg : path_isdir (lookupN t q) = true
                                · rw [if_pos htg] at hcp
                                  have hne2 : p ≠ q ++ [q.getLastD ""] := by
                                    intro he
                                    have hqpfx : q <+: p := he ▸ ⟨[q.getLastD ""], rfl⟩
                                    have hqnep : q ≠ p := hqp
                                    obtain ⟨sr, hsr⟩ : ∃ sr, src = some sr := by
                                      cases src with
                                      | none => simp [lookupP, path_isdir] at hsrc
                                      | some sr => exact ⟨sr, rfl⟩
                                    subst hsr
                                    have hdq : path_isdir (lookupN sr q) = true :=
                                      lookupN_strict_pfx_dir sr q p hqpfx hqnep
                                        (isSome_of_isdir _ hsrc)
                                    have hsq2 : lookupN sr q =
                                        some (Node.file m2 s2 true) := hsq
                                    rw [hsq2] at hdq
                                    simp [path_isdir] at hdq
                                  rw [putFile_preserve_off t t2 _ p m2 s2 hcp hne2
                                    hfile hsome, hat]
                                · rw [if_neg htg] at hcp
                                  rw [putFile_preserve_off t t2 q p m2 s2 hcp
                                    (fun he => hqp he.symm) hfile hsome, hat]
                  · intro o ho
                    rcases List.mem_singleton.mp ho with rfl
                    exact beq_eq_false_iff_ne.mpr hqp
              | error e =>
                  rw [hcp] at hstep
                  injection hstep with hstep
                  injection hstep with h1 h2
                  subst h1; subst h2
                  refine ⟨hat, ?_⟩
                  intro o ho
                  rcases List.mem_singleton.mp ho with rfl
                  exact beq_eq_false_iff_ne.mpr hqp

theorem creationFold_preserve_dirfile (src : Option Node) (p : RPath)
    (hsrc : path_isdir (lookupP src p) = true) :
    ∀ (L : List RPath) (t : Node) (fm fs : Nat),
      lookupN t p = some (.file fm fs true) →
      ∀ (t2 : Node) (msgs : List Outcome),
        creationFold src t L = .ok (t2, msgs) →
        lookupN t2 p = some (.file fm fs true) ∧
          ∀ o ∈ msgs, o.mentions p = false
  | [], t, fm, fs, hat, t2, msgs, h => by
      injection h with h
      injection h with h1 h2
      subst h1; subst h2
      exact ⟨hat, by simp⟩
  | q :: rest, t, fm, fs, hat, t2, msgs, h => by
      have hh : creationFold src t (q :: rest) =
          (create_step src t q >>= fun s =>
            creationFold src s.1 rest >>= fun r =>
              pure (r.1, s.2 ++ r.2)) := rfl
      rw [hh] at h
      cases hcs : create_step src t q with
      | error e =>
          rw [hcs, except_bind_error] at h
          exact absurd h (by simp)
      | ok s1 =>
          obtain ⟨t1, os1⟩ := s1
          rw [hcs, except_bind_ok] at h
          cases hcf : creationFold src t1 rest with
          | error e =>
              rw [hcf] at h
              exact absurd h (by simp [except_bind_error])
          | ok r1 =>
              obtain ⟨tr, osr⟩ := r1
              rw [hcf] at h
              injection h with h
              injection h with h1 h2
              subst h1; subst h2
              have hp1 := create_step_preserve_dirfile src p hsrc t fm fs hat q t1 os1 hcs
              have hrec := creationFold_preserve_dirfile src p hsrc rest t1 fm fs
                hp1.1 tr osr hcf
              refine ⟨hrec.1, ?_⟩
              intro o ho
              rcases List.mem_append.mp ho with h1 | h1
              · exact hp1.2 o h1
              · exact hrec.2 o h1

/-- C10 (confirmed): at a relative path where the source holds a directory
and the destination holds an existing (statable) file, a completed pass
leaves the destination file exactly as it was and records no outcome naming
that path: the removal phase keeps it because the source path exists, and
the equivalence check returns false because the source is a directory and
the destination path exists. -/
theorem kind_mismatch_untouched (src dst : Option Node) (p : RPath)
    (hwd : wfP dst = true)
    (hsrc : path_isdir (lookupP src p) = true)
    (fm fs : Nat) (hdst : lookupP dst p = some (.file fm fs true))
    (hp : p ≠ [])
    (dst2 : Option Node) (msgs : List Outcome)
    (hrun : folder_synchronization src dst = .ok (dst2, msgs)) :
    lookupP dst2 p = some (.file fm fs true) ∧
    ∀ o ∈ msgs, o.mentions p = false := by
  unfold folder_synchronization at hrun
  by_cases hex : path_exists src = true
  · rw [if_neg (by rw [hex]; simp)] at hrun
    cases dst with
    | none => rw [show lookupP none p = none from rfl] at hdst; exact absurd hdst (by simp)
    | some root =>
        have hroot : lookupN root p = some (.file fm fs true) := hdst
        have hrex : path_exists (some root) = true := by
          cases root with
          | dir a b c => rfl
          | file a b r =>
              cases p with
              | nil => exact absurd rfl hp
              | cons k q2 =>
                  rw [lookupN_file] at hroot
                  exact absurd hroot (by simp)
        change (if path_exists (some root) = true then runPass src root []
          else Except.ok (some root,
            [Outcome.errorCreateDest "FileExistsError"])) =
          Except.ok (dst2, msgs) at hrun
        rw [if_pos hrex] at hrun
        unfold runPass at hrun
        set rem := items_to_remove src root with hremdef
        have hremfacts : ∀ q ∈ rem, ¬ q <+: p ∧ ¬ p <+: q := by
          intro q hq
          rw [hremdef, items_to_remove_mem src root hwd q] at hq
          obtain ⟨hqne, hqsome, hqnex⟩ := hq
          obtain ⟨sr, rfl⟩ : ∃ sr, src = some sr := by
            cases src with
            | none => simp [lookupP, path_isdir] at hsrc
            | some sr => exact ⟨sr, rfl⟩
          constructor
          · intro hqp
            by_cases heq : q = p
            · subst heq
              rw [path_exists_of_isdir _ hsrc] at hqnex
              exact absurd hqnex (by simp)
            · have hdq : path_isdir (lookupN sr q) = true :=
                lookupN_strict_pfx_dir sr q p hqp heq (isSome_of_isdir _ hsrc)
              have : path_exists (lookupN sr q) = true := path_exists_of_isdir _ hdq
              rw [show lookupP (some sr) q = lookupN sr q from rfl, this] at hqnex
              exact absurd hqnex (by simp)
          · intro hpq
            by_cases heq : p = q
            · subst heq
              rw [path_exists_of_isdir _ hsrc] at hqnex
              exact absurd hqnex (by simp)
            · have : lookupN root q = none :=
                lookupN_under_file root p q hpq heq fm fs true hroot
              rw [this] at hqsome
              exact absurd hqsome (by simp)
        have hroot1 : lookupN (runRemovals root rem).1 p = some (.file fm fs true) := by
          rw [runRemovals_preserve root rem p hremfacts, hroot]
        cases hcf : creationFold src (runRemovals root rem).1 (srcItems src) with
        | error e =>
            rw [show (do
              let rm := runRemovals root (items_to_remove src root)
              let cr ← creationFold src rm.1 (srcItems src)
              pure (some cr.1, ([] : List Outcome) ++ rm.2 ++ cr.2)) =
                (creationFold src (runRemovals root rem).1 (srcItems src) >>=
                  fun cr => pure (some cr.1,
                    ([] : List Outcome) ++ (runRemovals root rem).2 ++ cr.2)) from rfl,
              hcf, except_bind_error] at hrun
            exact absurd hrun (by simp)
        | ok cr =>
            obtain ⟨root2, msgs2⟩ := cr
            rw [show (do
              let rm := runRemovals root (items_to_remove src root)
              let cr ← creationFold src rm.1 (srcItems src)
              pure (some cr.1, ([] : List Outcome) ++ rm.2 ++ cr.2)) =
                (creationFold src (runRemovals root rem).1 (srcItems src) >>=
                  fun cr => pure (some cr.1,
                    ([] : List Outcome) ++ (runRemovals root rem).2 ++ cr.2)) from rfl,
              hcf, except_bind_ok] at hrun
            injection hrun with hrun
            injection hrun with h1 h2
            subst h1; subst h2
            have hpres := creationFold_preserve_dirfile src p hsrc (srcItems src)
              (runRemovals root rem).1 fm fs hroot1 root2 msgs2 hcf
            refine ⟨hpres.1, ?_⟩
            intro o ho
            rcases List.mem_append.mp ho with h1 | h1
            · rw [List.nil_append] at h1
              exact runRemovals_mentions root rem p
                (fun q hq he => (hremfacts q hq).1
                  (by rw [he])) o h1
            · exact hpres.2 o h1
  · rw [if_pos (by rw [Bool.not_eq_true] at hex; rw [hex]; rfl)] at hrun
    injection hrun with hrun
    injection hrun with h1 h2
    subst h1; subst h2
    exact ⟨hdst, by intro o ho; rcases List.mem_singleton.mp ho with rfl; rfl⟩

/-- Witness for `kind_mismatch_untouched`: source directory `a` over a
destination file `a` — the pass returns the destination unchanged with no
outcomes, and the file is still there. -/
theorem kind_mismatch_untouched_witness :
    lookupP (some (Node.dir 0 0 [("a", Node.file 8 9 true)])) ["a"] =
      some (Node.file 8 9 true) :=
  (kind_mismatch_untouched (some (Node.dir 0 0 [("a", Node.dir 3 4 [])]))
    (some (Node.dir 0 0 [("a", Node.file 8 9 true)])) ["a"] rfl rfl 8 9 rfl
    (by simp) (some (Node.dir 0 0 [("a", Node.file 8 9 true)])) [] rfl).1

/-! ### Toolbox: lookupP variants and error-free step effects -/

theorem lookupP_pfx_some (src : Option Node) (a b : RPath) (ha : a <+: b)
    (h : (lookupP src b).isSome = true) : (lookupP src a).isSome = true := by
  cases src with
  | none => simp [lookupP] at h
  | some sr => exact lookupN_pfx_some sr a b ha h

theorem lookupP_strict_pfx_dir (src : Option Node) (a b : RPath) (ha : a <+: b)
    (hne : a ≠ b) (h : (lookupP src b).isSome = true) :
    path_isdir (lookupP src a) = true := by
  cases src with
  | none => simp [lookupP] at h
  | some sr => exact lookupN_strict_pfx_dir sr a b ha hne h

theorem path_exists_isSome (x : Option Node) (h : path_exists x = true) :
    x.isSome = true := by
  match x with
  | none => exact absurd h (by simp [path_exists])
  | some nd => rfl

theorem putFile_effects (src : Option Node) (q : RPath) (m s : Nat) (r : Bool)
    (hsq : lookupP src q = some (.file m s r))
    (t t2 : Node) (hpf : putFile t q m s = .ok t2) (hw : wfN t = true)
    (hInv : ∀ r2 fm fs fr, lookupP src r2 = some (.file fm fs fr) →
      path_isdir (lookupN t r2) = false) :
    wfN t2 = true ∧
    (∀ r2 fm fs fr, lookupP src r2 = some (.file fm fs fr) →
      path_isdir (lookupN t2 r2) = false) ∧
    (∀ r2, lookupP src r2 = none → lookupN t2 r2 = lookupN t r2) ∧
    (∀ r2, path_exists (lookupN t r2) = true → path_exists (lookupN t2 r2) = true) ∧
    (∀ r2 fm fs, lookupP src r2 = some (.file fm fs true) →
      lookupN t r2 = some (.file fm fs true) →
      lookupN t2 r2 = some (.file fm fs true)) ∧
    lookupN t2 q = some (.file m s true) := by
  have spec := putFile_ok_spec t t2 q m s hpf
  have hq_some : (lookupP src q).isSome = true := by rw [hsq]; rfl
  refine ⟨spec.2.2.2.2.2 hw, ?_, ?_, ?_, ?_, spec.1⟩
  · intro r2 fm fs fr hsf
    by_cases h1 : r2 <+: q
    · by_cases he : r2 = q
      · subst he
        rw [spec.1]
        rfl
      · have := lookupP_strict_pfx_dir src r2 q h1 he hq_some
        rw [hsf] at this
        exact absurd this (by simp [path_isdir])
    · by_cases h2 : q <+: r2
      · by_cases he : r2 = q
        · exact absurd (show r2 <+: q by rw [he]) h1
        · rw [(spec.2.2.1 r2 h2 he).1]
          rfl
      · rw [spec.2.1 r2 h1 h2]
        exact hInv r2 fm fs fr hsf
  · intro r2 hnone
    by_cases h1 : r2 <+: q
    · have := lookupP_pfx_some src r2 q h1 hq_some
      rw [hnone] at this
      exact absurd this (by simp)
    · by_cases h2 : q <+: r2
      · by_cases he : r2 = q
        · exact absurd (show r2 <+: q by rw [he]) h1
        · have hh := spec.2.2.1 r2 h2 he
          rw [hh.1, hh.2]
      · exact spec.2.1 r2 h1 h2
  · intro r2 hex
    by_cases h1 : r2 <+: q
    · by_cases he : r2 = q
      · subst he
        rw [spec.1]
        rfl
      · have hh := spec.2.2.2.1 r2 h1 he
        exact path_exists_of_isdir _ hh.2.2.2
    · by_cases h2 : q <+: r2
      · by_cases he : r2 = q
        · exact absurd (show r2 <+: q by rw [he]) h1
        · have hh := spec.2.2.1 r2 h2 he
          rw [hh.2] at hex
          exact absurd hex (by simp [path_exists])
      · rw [spec.2.1 r2 h1 h2]
        exact hex
  · intro r2 fm fs hsf ht
    by_cases h1 : r2 <+: q
    · by_cases he : r2 = q
      · subst he
        rw [hsf] at hsq
        injection hsq with hsq
        injection hsq with hm hs2 hr
        rw [spec.1, hm, hs2]
      · have := lookupP_strict_pfx_dir src r2 q h1 he hq_some
        rw [hsf] at this
        exact absurd this (by simp [path_isdir])
    · by_cases h2 : q <+: r2
      · by_cases he : r2 = q
        · exact absurd (show r2 <+: q by rw [he]) h1
        · have hh := spec.2.2.1 r2 h2 he
          rw [hh.2] at ht
          exact absurd ht (by simp)
      · rw [spec.2.1 r2 h1 h2]
        exact ht

theorem os_makedirs_effects (src : Option Node) (q : RPath)
    (hq_some : (lookupP src q).isSome = true)
    (hsdq : path_isdir (lookupP src q) = true)
    (t t2 : Node) (hmk : os_makedirs t q = .ok t2) (hw : wfN t = true)
    (hInv : ∀ r2 fm fs fr, lookupP src r2 = some (.file fm fs fr) →
      path_isdir (lookupN t r2) = false) :
    wfN t2 = true ∧
    (∀ r2 fm fs fr, lookupP src r2 = some (.file fm fs fr) →
      path_isdir (lookupN t2 r2) = false) ∧
    (∀ r2, lookupP src r2 = none → lookupN t2 r2 = lookupN t r2) ∧
    (∀ r2, path_exists (lookupN t r2) = true → path_exists (lookupN t2 r2) = true) ∧
    (∀ r2 fm fs, lookupP src r2 = some (.file fm fs true) →
      lookupN t r2 = some (.file fm fs true) →
      lookupN t2 r2 = some (.file fm fs true)) ∧
    path_exists (lookupN t2 q) = true := by
  have spec := os_makedirs_ok_spec t t2 q hmk
  refine ⟨spec.2.2.2.2 hw, ?_, ?_, ?_, ?_,
    path_exists_of_isdir _ (spec.2.2.1 q (List.prefix_refl q)).2⟩
  · intro r2 fm fs fr hsf
    by_cases h1 : r2 <+: q
    · by_cases he : r2 = q
      · subst he
        rw [hsf] at hsdq
        exact absurd hsdq (by simp [path_isdir])
      · have := lookupP_strict_pfx_dir src r2 q h1 he hq_some
        rw [hsf] at this
        exact absurd this (by simp [path_isdir])
    · rw [spec.2.1 r2 h1]
      exact hInv r2 fm fs fr hsf
  · intro r2 hnone
    by_cases h1 : r2 <+: q
    · have := lookupP_pfx_some src r2 q h1 hq_some
      rw [hnone] at this
      exact absurd this (by simp)
    · exact spec.2.1 r2 h1
  · intro r2 hex
    by_cases h1 : r2 <+: q
    · exact path_exists_of_isdir _ (spec.2.2.1 r2 h1).2
    · rw [spec.2.1 r2 h1]
      exact hex
  · intro r2 fm fs hsf ht
    by_cases h1 : r2 <+: q
    · by_cases he : r2 = q
      · subst he
        rw [hsf] at hsdq
        exact absurd hsdq (by simp [path_isdir])
      · have := lookupP_strict_pfx_dir src r2 q h1 he hq_some
        rw [hsf] at this
        exact absurd this (by simp [path_isdir])
    · rw [spec.2.1 r2 h1]
      exact ht

theorem except_pure {α : Type} (a : α) : (pure a : Except String α) = .ok a := rfl

theorem create_step_noerr_master (src : Option Node) (q : RPath) (sn : Node)
    (hsq : lookupP src q = some sn)
    (t t1 : Node) (os1 : List Outcome)
    (hw : wfN t = true)
    (hInv : ∀ r2 fm fs fr, lookupP src r2 = some (.file fm fs fr) →
      path_isdir (lookupN t r2) = false)
    (hstep : create_step src t q = .ok (t1, os1))
    (herr : ∀ o ∈ os1, o.isError = false) :
    wfN t1 = true ∧
    (∀ r2 fm fs fr, lookupP src r2 = some (.file fm fs fr) →
      path_isdir (lookupN t1 r2) = false) ∧
    (∀ r2, lookupP src r2 = none → lookupN t1 r2 = lookupN t r2) ∧
    (∀ r2, path_exists (lookupN t r2) = true → path_exists (lookupN t1 r2) = true) ∧
    (∀ r2 fm fs, lookupP src r2 = some (.file fm fs true) →
      lookupN t r2 = some (.file fm fs true) →
      lookupN t1 r2 = some (.file fm fs true)) ∧
    ((∀ fm fs fr, sn = .file fm fs fr →
        fr = true ∧ lookupN t1 q = some (.file fm fs true)) ∧
      (sn.isDirB = true → path_exists (lookupN t1 q) = true)) := by
  unfold create_step at hstep
  cases sn with
  | dir dm ds dcs =>
      have hsd : path_isdir (lookupP src q) = true := by rw [hsq]; rfl
      by_cases hde : path_exists (lookupN t q) = true
      · -- destination exists: no write needed for a directory
        have hsc : same_file_check (lookupP src q) (lookupN t q) = .ok false := by
          unfold same_file_check
          rw [if_neg (by rw [hde]; simp), if_neg (by rw [hsd]; simp)]
        rw [hsc, except_bind_ok, if_neg (by simp)] at hstep
        injection hstep with hstep
        injection hstep with h1 h2
        subst h1; subst h2
        refine ⟨hw, hInv, fun r2 _ => rfl, fun r2 h => h, fun r2 fm fs _ h => h, ?_, ?_⟩
        · intro fm fs fr he
          exact absurd he (by simp)
        · intro _
          exact hde
      · -- destination missing/unstatable: create the directory
        have hdef : path_exists (lookupN t q) = false := by
          cases hx : path_exists (lookupN t q)
          · rfl
          · exact absurd hx hde
        have hsc : same_file_check (lookupP src q) (lookupN t q) = .ok true := by
          unfold same_file_check
          rw [if_pos (by rw [hdef]; rfl)]
        rw [hsc, except_bind_ok, if_pos rfl, if_pos hsd] at hstep
        cases hmk : os_makedirs t q with
        | error e =>
            rw [hmk] at hstep
            injection hstep with hstep
            injection hstep with h1 h2
            subst h2
            have := herr (Outcome.errorCreateDir q e) (List.mem_singleton.mpr rfl)
            exact absurd this (by simp [Outcome.isError])
        | ok t2 =>
            rw [hmk] at hstep
            injection hstep with hstep
            injection hstep with h1 h2
            subst h1; subst h2
            have heff := os_makedirs_effects src q (by rw [hsq]; rfl) hsd t t2 hmk hw hInv
            refine ⟨heff.1, heff.2.1, heff.2.2.1, heff.2.2.2.1, heff.2.2.2.2.1, ?_, ?_⟩
            · intro fm fs fr he
              exact absurd he (by simp)
            · intro _
              exact heff.2.2.2.2.2
  | file m s r =>
      have hnsd : path_isdir (lookupP src q) = false := by rw [hsq]; rfl
      by_cases hde : path_exists (lookupN t q) = true
      · -- destination exists: it must be a statable file by the invariant
        cases hdq : lookupN t q with
        | none => rw [hdq] at hde; exact absurd hde (by simp [path_exists])
        | some dnd =>
            cases dnd with
            | dir a b c =>
                have := hInv q m s r hsq
                rw [hdq] at this
                exact absurd this (by simp [path_isdir])
            | file fm2 fs2 r2 =>
                cases r2 with
                | false => rw [hdq] at hde; exact absurd hde (by simp [path_exists])
                | true =>
                    cases r with
                    | false =>
                        -- reading the source attribute raises: contradicts ok
                        have hsc : same_file_check (lookupP src q) (lookupN t q) =
                            .error "PermissionError" := by
                          rw [hsq, hdq]
                          rfl
                        rw [hsc, except_bind_error] at hstep
                        exact absurd hstep (by simp)
                    | true =>
                        by_cases hmeq : fm2 = m
                        · by_cases hseq : fs2 = s
                          · -- attributes match: no write
                            have hsc : same_file_check (lookupP src q)
                                (lookupN t q) = .ok false := by
                              rw [hsq, hdq, hmeq, hseq]
                              simp [same_file_check, path_exists, path_isdir,
                                getmtime, getsize, except_bind_ok, except_pure]
                            rw [hsc, except_bind_ok, if_neg (by simp)] at hstep
                            injection hstep with hstep
                            injection hstep with h1 h2
                            subst h1; subst h2
                            refine ⟨hw, hInv, fun r2 _ => rfl, fun r2 h => h,
                              fun r2 fm fs _ h => h, ?_, ?_⟩
                            · intro fm fs fr he
                              injection he with e1 e2 e3
                              subst e1; subst e2; subst e3
                              rw [hdq, hmeq, hseq]
                              exact ⟨rfl, rfl⟩
                            · intro hcon
                              exact absurd hcon (by simp [Node.isDirB])
                          · -- size differs: rewrite the file
                            have hsc : same_file_check (lookupP src q)
                                (lookupN t q) = .ok true := by
                              rw [hsq, hdq, hmeq]
                              simp [same_file_check, path_exists, path_isdir,
                                getmtime, getsize, except_bind_ok, except_pure, hseq]
                            rw [hsc, except_bind_ok, if_pos rfl,
                              if_neg (by rw [hnsd]; simp)] at hstep
                            have hcp : shutil_copy2 (lookupP src q) t q =
                                putFile t q m s := by
                              rw [hsq]
                              show (let target := if path_isdir (lookupN t q) = true
                                      then q ++ [q.getLastD ""] else q
                                    putFile t target m s) = putFile t q m s
                              rw [if_neg (by rw [hdq]; simp [path_isdir])]
                            rw [hcp] at hstep
                            cases hpf : putFile t q m s with
                            | error e =>
                                rw [hpf] at hstep
                                injection hstep with hstep
                                injection hstep with h1 h2
                                subst h2
                                have := herr (Outcome.errorCopy q e)
                                  (List.mem_singleton.mpr rfl)
                                exact absurd this (by simp [Outcome.isError])
                            | ok t2 =>
                                rw [hpf] at hstep
                                injection hstep with hstep
                                injection hstep with h1 h2
                                subst h1; subst h2
                                have heff := putFile_effects src q m s true hsq
                                  t t2 hpf hw hInv
                                refine ⟨heff.1, heff.2.1, heff.2.2.1,
                                  heff.2.2.2.1, heff.2.2.2.2.1, ?_, ?_⟩
                                · intro fm fs fr he
                                  injection he with e1 e2 e3
                                  subst e1; subst e2; subst e3
                                  exact ⟨rfl, heff.2.2.2.2.2⟩
                                · intro hcon
                                  exact absurd hcon (by simp [Node.isDirB])
                        · -- mtime differs: rewrite the file
                          have hsc : same_file_check (lookupP src q)
                              (lookupN t q) = .ok true := by
                            rw [hsq, hdq]
                            simp [same_file_check, path_exists, path_isdir,
                              getmtime, getsize, except_bind_ok, except_pure, hmeq]
                          rw [hsc, except_bind_ok, if_pos rfl,
                            if_neg (by rw [hnsd]; simp)] at hstep
                          have hcp : shutil_copy2 (lookupP src q) t q =
                              putFile t q m s := by
                            rw [hsq]
                            show (let target := if path_isdir (lookupN t q) = true
                                    then q ++ [q.getLastD ""] else q
                                  putFile t target m s) = putFile t q m s
                            rw [if_neg (by rw [hdq]; simp [path_isdir])]
                          rw [hcp] at hstep
                          cases hpf : putFile t q m s with
                          | error e =>
                              rw [hpf] at hstep
                              injection hstep with hstep
                              injection hstep with h1 h2
                              subst h2
                              have := herr (Outcome.errorCopy q e)
                                (List.mem_singleton.mpr rfl)
                              exact absurd this (by simp [Outcome.isError])
                          | ok t2 =>
                              rw [hpf] at hstep
                              injection hstep with hstep
                              injection hstep with h1 h2
                              subst h1; subst h2
                              have heff := putFile_effects src q m s true hsq
                                t t2 hpf hw hInv
                              refine ⟨heff.1, heff.2.1, heff.2.2.1,
                                heff.2.2.2.1, heff.2.2.2.2.1, ?_, ?_⟩
                              · intro fm fs fr he
                                injection he with e1 e2 e3
                                subst e1; subst e2; subst e3
                                exact ⟨rfl, heff.2.2.2.2.2⟩
                              · intro hcon
                                exact absurd hcon (by simp [Node.isDirB])
      · -- destination missing/unstatable: copy the file
        have hdef : path_exists (lookupN t q) = false := by
          cases hx : path_exists (lookupN t q)
          · rfl
          · exact absurd hx hde
        have hsc : same_file_check (lookupP src q) (lookupN t q) = .ok true := by
          unfold same_file_check
          rw [if_pos (by rw [hdef]; rfl)]
        rw [hsc, except_bind_ok, if_pos rfl, if_neg (by rw [hnsd]; simp)] at hstep
        cases r with
        | false =>
            have hcp : shutil_copy2 (lookupP src q) t q =
                .error "PermissionError" := by
              rw [hsq]
              rfl
            rw [hcp] at hstep
            injection hstep with hstep
            injection hstep with h1 h2
            subst h2
            have := herr (Outcome.errorCopy q "PermissionError")
              (List.mem_singleton.mpr rfl)
            exact absurd this (by simp [Outcome.isError])
        | true =>
            have hndq : path_isdir (lookupN t q) = false := by
              cases hx : path_isdir (lookupN t q)
              · rfl
              · rw [path_exists_of_isdir _ hx] at hdef
                exact absurd hdef (by simp)
            have hcp : shutil_copy2 (lookupP src q) t q = putFile t q m s := by
              rw [hsq]
              show (let target := if path_isdir (lookupN t q) = true
                      then q ++ [q.getLastD ""] else q
                    putFile t target m s) = putFile t q m s
              rw [if_neg (by rw [hndq]; simp)]
            rw [hcp] at hstep
            cases hpf : putFile t q m s with
            | error e =>
                rw [hpf] at hstep
                injection hstep with hstep
                injection hstep with h1 h2
                subst h2
                have := herr (Outcome.errorCopy q e) (List.mem_singleton.mpr rfl)
                exact absurd this (by simp [Outcome.isError])
            | ok t2 =>
                rw [hpf] at hstep
                injection hstep with hstep
                injection hstep with h1 h2
                subst h1; subst h2
                have heff := putFile_effects src q m s true hsq t t2 hpf hw hInv
                refine ⟨heff.1, heff.2.1, heff.2.2.1, heff.2.2.2.1,
                  heff.2.2.2.2.1, ?_, ?_⟩
                · intro fm fs fr he
                  injection he with e1 e2 e3
                  subst e1; subst e2; subst e3
                  exact ⟨rfl, heff.2.2.2.2.2⟩
                · intro hcon
                  exact absurd hcon (by simp [Node.isDirB])

theorem creationFold_noerr_master (src : Option Node) :
    ∀ (L : List RPath) (t : Node),
      wfN t = true →
      (∀ p ∈ L, (lookupP src p).isSome = true) →
      (∀ r2 fm fs fr, lookupP src r2 = some (.file fm fs fr) →
        path_isdir (lookupN t r2) = false) →
      ∀ (t2 : Node) (msgs : List Outcome),
        creationFold src t L = .ok (t2, msgs) →
        (∀ o ∈ msgs, o.isError = false) →
        wfN t2 = true ∧
        (∀ r2 fm fs fr, lookupP src r2 = some (.file fm fs fr) →
          path_isdir (lookupN t2 r2) = false) ∧
        (∀ r2, lookupP src r2 = none → lookupN t2 r2 = lookupN t r2) ∧
        (∀ r2, path_exists (lookupN t r2) = true →
          path_exists (lookupN t2 r2) = true) ∧
        (∀ r2 fm fs, lookupP src r2 = some (.file fm fs true) →
          lookupN t r2 = some (.file fm fs true) →
          lookupN t2 r2 = some (.file fm fs true)) ∧
        (∀ p ∈ L,
          (∀ fm fs fr, lookupP src p = some (.file fm fs fr) →
            fr = true ∧ lookupN t2 p = some (.file fm fs true)) ∧
          (path_isdir (lookupP src p) = true →
            path_exists (lookupN t2 p) = true))
  | [], t, hw, hL, hInv, t2, msgs, h, herr => by
      injection h with h
      injection h with h1 h2
      subst h1; subst h2
      exact ⟨hw, hInv, fun r2 _ => rfl, fun r2 h => h, fun r2 fm fs _ h => h,
        fun p hp => absurd hp (by simp)⟩
  | q :: rest, t, hw, hL, hInv, t2, msgs, h, herr => by
      have hh : creationFold src t (q :: rest) =
          (create_step src t q >>= fun s =>
            creationFold src s.1 rest >>= fun r =>
              pure (r.1, s.2 ++ r.2)) := rfl
      rw [hh] at h
      cases hcs : create_step src t q with
      | error e =>
          rw [hcs, except_bind_error] at h
          exact absurd h (by simp)
      | ok s1 =>
          obtain ⟨t1, os1⟩ := s1
          rw [hcs, except_bind_ok] at h
          cases hcf : creationFold src t1 rest with
          | error e =>
              rw [hcf] at h
              exact absurd h (by simp [except_bind_error])
          | ok r1 =>
              obtain ⟨tr, osr⟩ := r1
              rw [hcf] at h
              injection h with h
              injection h with h1 h2
              subst h1; subst h2
              obtain ⟨sn, hsq⟩ := Option.isSome_iff_exists.mp
                (hL q (List.mem_cons_self q rest))
              have herr1 : ∀ o ∈ os1, o.isError = false := by
                intro o ho
                exact herr o (List.mem_append.mpr (Or.inl ho))
              have herr2 : ∀ o ∈ osr, o.isError = false := by
                intro o ho
                exact herr o (List.mem_append.mpr (Or.inr ho))
              have step := create_step_noerr_master src q sn hsq t t1 os1
                hw hInv hcs herr1
              have IH := creationFold_noerr_master src rest t1 step.1
                (fun p hp => hL p (List.mem_cons_of_mem q hp)) step.2.1
                tr osr hcf herr2
              refine ⟨IH.1, IH.2.1, ?_, ?_, ?_, ?_⟩
              · intro r2 hnone
                rw [IH.2.2.1 r2 hnone, step.2.2.1 r2 hnone]
              · intro r2 hex
                exact IH.2.2.2.1 r2 (step.2.2.2.1 r2 hex)
              · intro r2 fm fs hsf ht
                exact IH.2.2.2.2.1 r2 fm fs hsf (step.2.2.2.2.1 r2 fm fs hsf ht)
              · intro p hp
                rcases List.mem_cons.mp hp with hpq | hprest
                · subst hpq
                  constructor
                  · intro fm fs fr hsf
                    have hsn : sn = Node.file fm fs fr := by
                      rw [hsf] at hsq
                      injection hsq with hsq
                      exact hsq.symm
                    obtain ⟨hfr, hval⟩ := step.2.2.2.2.2.1 fm fs fr hsn
                    subst hfr
                    exact ⟨rfl, IH.2.2.2.2.1 p fm fs hsf hval⟩
                  · intro hsd
                    have hdb : sn.isDirB = true := by
                      rw [hsq] at hsd
                      cases sn with
                      | dir a b c => rfl
                      | file a b c => exact absurd hsd (by simp [path_isdir])
                    exact IH.2.2.2.1 p (step.2.2.2.2.2.2 hdb)
                · exact IH.2.2.2.2.2 p hprest

theorem remove_step_noerr (t : Node) (p : RPath)
    (hw : wfN t = true)
    (herr : ((remove_step t p).2).isError = false) :
    ∃ t2, remove_step t p = (t2, Outcome.infoRemoved p) ∧
      wfN t2 = true ∧
      (∀ q, (lookupN t2 q).isSome = true ↔
        ((lookupN t q).isSome = true ∧ q ≠ p)) ∧
      (∀ q fm fs fr, q ≠ p → lookupN t q = some (.file fm fs fr) →
        lookupN t2 q = some (.file fm fs fr)) ∧
      (∀ q, path_isdir (lookupN t2 q) = true →
        path_isdir (lookupN t q) = true) ∧
      (∀ q, q ≠ p → path_isdir (lookupN t q) = true →
        path_isdir (lookupN t2 q) = true) := by
  by_cases hd : path_isdir (lookupN t p) = true
  · cases hok : os_rmdir t p with
    | error e =>
        have hbad : (remove_step t p).2 = Outcome.errorRemove p e := by
          unfold remove_step
          rw [if_pos hd, hok]
        rw [hbad] at herr
        exact absurd herr (by simp [Outcome.isError])
    | ok t2 =>
        have hstep : remove_step t p = (t2, Outcome.infoRemoved p) := by
          unfold remove_step
          rw [if_pos hd, hok]
        have spec := os_rmdir_ok_spec t t2 p hok
        obtain ⟨dm, ds, hdir⟩ := spec.1
        have hsome : (lookupN t p).isSome = true := by rw [hdir]; rfl
        refine ⟨t2, hstep, spec.2.2.2.2 hw, ?_, ?_, ?_, ?_⟩
        · intro q
          constructor
          · intro hq2
            by_cases h1 : q <+: p
            · by_cases he : q = p
              · subst he
                rw [spec.2.1 q (List.prefix_refl q)] at hq2
                exact absurd hq2 (by simp)
              · exact ⟨lookupN_pfx_some t q p h1 hsome, he⟩
            · by_cases h2 : p <+: q
              · rw [spec.2.1 q h2] at hq2
                exact absurd hq2 (by simp)
              · rw [spec.2.2.1 q h1 h2] at hq2
                refine ⟨hq2, ?_⟩
                intro he
                exact h1 (he ▸ List.prefix_refl q)
          · rintro ⟨hq, hne⟩
            by_cases h1 : q <+: p
            · exact (spec.2.2.2.1 q h1 hne).1
            · by_cases h2 : p <+: q
              · exfalso
                obtain ⟨ext, hq2e⟩ := h2
                subst hq2e
                have hext : ext ≠ [] := by
                  rintro rfl
                  exact hne (by simp)
                rw [lookupN_append, hdir] at hq
                cases ext with
                | nil => exact absurd rfl hext
                | cons x xs => simp [lookupN, findChild] at hq
              · rw [spec.2.2.1 q h1 h2]
                exact hq
        · intro q fm fs fr hne hq
          by_cases h1 : q <+: p
          · exfalso
            have := lookupN_strict_pfx_dir t q p h1 hne hsome
            rw [hq] at this
            exact absurd this (by simp [path_isdir])
          · by_cases h2 : p <+: q
            · exfalso
              obtain ⟨ext, hq2e⟩ := h2
              subst hq2e
              have hext : ext ≠ [] := by
                rintro rfl
                exact hne (by simp)
              rw [lookupN_append, hdir] at hq
              cases ext with
              | nil => exact absurd rfl hext
              | cons x xs => simp [lookupN, findChild] at hq
            · rw [spec.2.2.1 q h1 h2]
              exact hq
        · intro q hq2
          by_cases h1 : q <+: p
          · by_cases he : q = p
            · subst he
              rw [spec.2.1 q (List.prefix_refl q)] at hq2
              exact absurd hq2 (by simp [path_isdir])
            · rw [(spec.2.2.2.1 q h1 he).2] at hq2
              exact hq2
          · by_cases h2 : p <+: q
            · rw [spec.2.1 q h2] at hq2
              exact absurd hq2 (by simp [path_isdir])
            · rw [spec.2.2.1 q h1 h2] at hq2
              exact hq2
        · intro q hqp hq
          by_cases h1 : q <+: p
          · rw [(spec.2.2.2.1 q h1 hqp).2]
            exact hq
          · by_cases h2 : p <+: q
            · exfalso
              obtain ⟨ext, hq2e⟩ := h2
              subst hq2e
              have hext : ext ≠ [] := by
                rintro rfl
                exact hqp (by simp)
              rw [lookupN_append, hdir] at hq
              cases ext with
              | nil => exact absurd rfl hext
              | cons x xs => simp [lookupN, findChild, path_isdir] at hq
            · rw [spec.2.2.1 q h1 h2]
              exact hq
  · cases hok : os_remove t p with
    | error e =>
        have hbad : (remove_step t p).2 = Outcome.errorRemove p e := by
          unfold remove_step
          rw [if_neg hd, hok]
        rw [hbad] at herr
        exact absurd herr (by simp [Outcome.isError])
    | ok t2 =>
        have hstep : remove_step t p = (t2, Outcome.infoRemoved p) := by
          unfold remove_step
          rw [if_neg hd, hok]
        have spec := os_remove_ok_spec t t2 p hok
        obtain ⟨fm0, fs0, fr0, hfile⟩ := spec.1
        have hsome : (lookupN t p).isSome = true := by rw [hfile]; rfl
        refine ⟨t2, hstep, spec.2.2.2.2 hw, ?_, ?_, ?_, ?_⟩
        · intro q
          constructor
          · intro hq2
            by_cases h1 : q <+: p
            · by_cases he : q = p
              · subst he
                rw [spec.2.1 q (List.prefix_refl q)] at hq2
                exact absurd hq2 (by simp)
              · exact ⟨lookupN_pfx_some t q p h1 hsome, he⟩
            · by_cases h2 : p <+: q
              · rw [spec.2.1 q h2] at hq2
                exact absurd hq2 (by simp)
              · rw [spec.2.2.1 q h1 h2] at hq2
                refine ⟨hq2, ?_⟩
                intro he
                exact h1 (he ▸ List.prefix_refl q)
          · rintro ⟨hq, hne⟩
            by_cases h1 : q <+: p
            · exact (spec.2.2.2.1 q h1 hne).1
            · by_cases h2 : p <+: q
              · exfalso
                rw [lookupN_under_file t p q h2
                  (fun he => hne he.symm) fm0 fs0 fr0 hfile] at hq
                exact absurd hq (by simp)
              · rw [spec.2.2.1 q h1 h2]
                exact hq
        · intro q fm fs fr hne hq
          by_cases h1 : q <+: p
          · exfalso
            have := lookupN_strict_pfx_dir t q p h1 hne hsome
            rw [hq] at this
            exact absurd this (by simp [path_isdir])
          · by_cases h2 : p <+: q
            · exfalso
              rw [lookupN_under_file t p q h2
                (fun he => hne he.symm) fm0 fs0 fr0 hfile] at hq
              exact absurd hq (by simp)
            · rw [spec.2.2.1 q h1 h2]
              exact hq
        · intro q hq2
          by_cases h1 : q <+: p
          · by_cases he : q = p
            · subst he
              rw [spec.2.1 q (List.prefix_refl q)] at hq2
              exact absurd hq2 (by simp [path_isdir])
            · rw [(spec.2.2.2.1 q h1 he).2] at hq2
              exact hq2
          · by_cases h2 : p <+: q
            · rw [spec.2.1 q h2] at hq2
              exact absurd hq2 (by simp [path_isdir])
            · rw [spec.2.2.1 q h1 h2] at hq2
              exact hq2
        · intro q hqp hq
          by_cases h1 : q <+: p
          · rw [(spec.2.2.2.1 q h1 hqp).2]
            exact hq
          · by_cases h2 : p <+: q
            · exfalso
              rw [lookupN_under_file t p q h2
                (fun he => hqp he.symm) fm0 fs0 fr0 hfile] at hq
              exact absurd hq (by simp [path_isdir])
            · rw [spec.2.2.1 q h1 h2]
              exact hq

theorem runRemovals_noerr_master : ∀ (rem : List RPath) (t : Node),
    wfN t = true →
    (∀ o ∈ (runRemovals t rem).2, o.isError = false) →
    wfN (runRemovals t rem).1 = true ∧
    (∀ q, (lookupN (runRemovals t rem).1 q).isSome = true ↔
      ((lookupN t q).isSome = true ∧ q ∉ rem)) ∧
    (∀ q fm fs fr, q ∉ rem → lookupN t q = some (.file fm fs fr) →
      lookupN (runRemovals t rem).1 q = some (.file fm fs fr)) ∧
    (∀ q, path_isdir (lookupN (runRemovals t rem).1 q) = true →
      path_isdir (lookupN t q) = true) ∧
    (∀ q, q ∉ rem → path_isdir (lookupN t q) = true →
      path_isdir (lookupN (runRemovals t rem).1 q) = true)
  | [], t, hw, herr => by
      refine ⟨hw, ?_, fun q fm fs fr _ hq => hq, fun q h => h, fun q _ h => h⟩
      intro q
      simp [runRemovals]
  | p :: rest, t, hw, herr => by
      have herr0 : ((remove_step t p).2).isError = false := by
        apply herr
        exact List.mem_cons_self _ _
      obtain ⟨t1, hstep, hw1, hiff, hfile, hdirb, hdirf⟩ :=
        remove_step_noerr t p hw herr0
      have hfst : (runRemovals t (p :: rest)).1 = (runRemovals t1 rest).1 := by
        show (runRemovals (remove_step t p).1 rest).1 = (runRemovals t1 rest).1
        rw [hstep]
      have hsnd : (runRemovals t (p :: rest)).2 =
          Outcome.infoRemoved p :: (runRemovals t1 rest).2 := by
        show (remove_step t p).2 :: (runRemovals (remove_step t p).1 rest).2 =
          Outcome.infoRemoved p :: (runRemovals t1 rest).2
        rw [hstep]
      have herr1 : ∀ o ∈ (runRemovals t1 rest).2, o.isError = false := by
        intro o ho
        apply herr
        rw [hsnd]
        exact List.mem_cons_of_mem _ ho
      have IH := runRemovals_noerr_master rest t1 hw1 herr1
      rw [hfst]
      refine ⟨IH.1, ?_, ?_, ?_, ?_⟩
      · intro q
        rw [IH.2.1 q, hiff q, List.mem_cons]
        constructor
        · rintro ⟨⟨ha, hb⟩, hc⟩
          exact ⟨ha, fun hor => hor.elim hb hc⟩
        · rintro ⟨ha, hb⟩
          exact ⟨⟨ha, fun he => hb (Or.inl he)⟩, fun he => hb (Or.inr he)⟩
      · intro q fm fs fr hq hlq
        rw [List.mem_cons] at hq
        exact IH.2.2.1 q fm fs fr (fun he => hq (Or.inr he))
          (hfile q fm fs fr (fun he => hq (Or.inl he)) hlq)
      · intro q hq
        exact hdirb q (IH.2.2.2.1 q hq)
      · intro q hq hd
        rw [List.mem_cons] at hq
        exact IH.2.2.2.2 q (fun he => hq (Or.inr he))
          (hdirf q (fun he => hq (Or.inl he)) hd)

theorem runRemovals_root_exists (src : Option Node) (root : Node)
    (hwroot : wfN root = true)
    (hre : path_exists (some root) = true)
    (herr : ∀ o ∈ (runRemovals root (items_to_remove src root)).2, o.isError = false) :
    path_exists (lookupN (runRemovals root (items_to_remove src root)).1 []) = true := by
  cases root with
  | file m s r =>
      have h0 : (runRemovals (Node.file m s r)
          (items_to_remove src (Node.file m s r))).1 = Node.file m s r := rfl
      rw [h0, lookupN_nil]
      exact hre
  | dir m s cs =>
      have RM := runRemovals_noerr_master (items_to_remove src (Node.dir m s cs))
        (Node.dir m s cs) hwroot herr
      have hnil : ([] : RPath) ∉ items_to_remove src (Node.dir m s cs) := by
        intro hmem
        exact ((items_to_remove_mem src (Node.dir m s cs) hwroot []).mp hmem).1 rfl
      have hd := RM.2.2.2.2 [] hnil (by rw [lookupN_nil]; rfl)
      exact path_exists_of_isdir _ hd

theorem runPass_noerr_master (sn root : Node) (msgs0 : List Outcome)
    (dst2 : Option Node) (msgs : List Outcome)
    (hwsn : wfN sn = true) (hwroot : wfN root = true)
    (hre : path_exists (some root) = true)
    (hmmr : ∀ p fm fs fr, lookupN sn p = some (.file fm fs fr) →
      path_isdir (lookupN root p) = false)
    (hrun : runPass (some sn) root msgs0 = .ok (dst2, msgs))
    (herr : ∀ o ∈ msgs, o.isError = false) :
    ∃ tf, dst2 = some tf ∧ wfN tf = true ∧
      path_exists (some tf) = true ∧
      (∀ p, p ≠ [] → (lookupN tf p).isSome = (lookupN sn p).isSome) ∧
      (∀ p fm fs fr, p ≠ [] → lookupN sn p = some (.file fm fs fr) →
        fr = true ∧ lookupN tf p = some (.file fm fs true)) ∧
      (∀ p, p ≠ [] → path_isdir (lookupN sn p) = true →
        path_exists (lookupN tf p) = true) := by
  have hh : runPass (some sn) root msgs0 =
      (creationFold (some sn)
          (runRemovals root (items_to_remove (some sn) root)).1
          (srcItems (some sn)) >>= fun cr =>
        pure (some cr.1,
          msgs0 ++ (runRemovals root (items_to_remove (some sn) root)).2 ++ cr.2)) := rfl
  rw [hh] at hrun
  cases hcf : creationFold (some sn)
      (runRemovals root (items_to_remove (some sn) root)).1
      (srcItems (some sn)) with
  | error e =>
      rw [hcf, except_bind_error] at hrun
      exact absurd hrun (by simp)
  | ok cr =>
      obtain ⟨tf, crmsgs⟩ := cr
      rw [hcf, except_bind_ok, except_pure] at hrun
      injection hrun with hrun
      injection hrun with h1 h2
      subst h1
      subst h2
      have herrRm : ∀ o ∈ (runRemovals root (items_to_remove (some sn) root)).2,
          o.isError = false := by
        intro o ho
        exact herr o (List.mem_append.mpr (Or.inl (List.mem_append.mpr (Or.inr ho))))
      have herrCr : ∀ o ∈ crmsgs, o.isError = false := by
        intro o ho
        exact herr o (List.mem_append.mpr (Or.inr ho))
      have RM := runRemovals_noerr_master (items_to_remove (some sn) root) root
        hwroot herrRm
      have hInv1 : ∀ r2 fm fs fr, lookupP (some sn) r2 = some (.file fm fs fr) →
          path_isdir (lookupN (runRemovals root (items_to_remove (some sn) root)).1 r2)
            = false := by
        intro r2 fm fs fr hsf
        cases hx : path_isdir
            (lookupN (runRemovals root (items_to_remove (some sn) root)).1 r2) with
        | false => rfl
        | true =>
            exfalso
            have hrd := RM.2.2.2.1 r2 hx
            rw [hmmr r2 fm fs fr hsf] at hrd
            exact absurd hrd (by simp)
      have hL : ∀ p ∈ srcItems (some sn), (lookupP (some sn) p).isSome = true := by
        intro p hp
        have hp2 : p ∈ (walkPreN sn).map (fun x => x.1) := hp
        obtain ⟨⟨q, nd⟩, hqnd, hq⟩ := List.mem_map.mp hp2
        obtain ⟨hne, hl⟩ := (walkPreN_mem sn hwsn q nd).mp hqnd
        have hq2 : q = p := hq
        subst hq2
        show (lookupN sn q).isSome = true
        rw [hl]
        rfl
      have CR := creationFold_noerr_master (some sn) (srcItems (some sn))
        (runRemovals root (items_to_remove (some sn) root)).1 RM.1 hL hInv1
        tf crmsgs hcf herrCr
      have hex1 := runRemovals_root_exists (some sn) root hwroot hre herrRm
      have hextf : path_exists (some tf) = true := by
        have hmono := CR.2.2.2.1 [] hex1
        rw [lookupN_nil] at hmono
        exact hmono
      have hiso : ∀ p, p ≠ [] → (lookupN tf p).isSome = (lookupN sn p).isSome := by
        intro p hne
        cases hsp : lookupN sn p with
        | none =>
            have h1 : lookupN tf p =
                lookupN (runRemovals root (items_to_remove (some sn) root)).1 p :=
              CR.2.2.1 p hsp
            rw [h1]
            show (lookupN (runRemovals root (items_to_remove (some sn) root)).1 p).isSome
              = false
            cases hr1 : (lookupN
                (runRemovals root (items_to_remove (some sn) root)).1 p).isSome with
            | false => rfl
            | true =>
                exfalso
                obtain ⟨hrootp, hnotrem⟩ := (RM.2.1 p).mp hr1
                apply hnotrem
                refine (items_to_remove_mem (some sn) root hwroot p).mpr
                  ⟨hne, hrootp, ?_⟩
                show path_exists (lookupN sn p) = false
                rw [hsp]
                rfl
        | some sd =>
            have hmemL : p ∈ srcItems (some sn) := by
              show p ∈ (walkPreN sn).map (fun x => x.1)
              exact List.mem_map.mpr ⟨(p, sd),
                (walkPreN_mem sn hwsn p sd).mpr ⟨hne, hsp⟩, rfl⟩
            have hfacts := CR.2.2.2.2.2 p hmemL
            cases sd with
            | file fm fs fr =>
                obtain ⟨hfr, hval⟩ := hfacts.1 fm fs fr hsp
                rw [hval]
                rfl
            | dir dm dsz dcs =>
                have hx := hfacts.2
                  (by show path_isdir (lookupN sn p) = true; rw [hsp]; rfl)
                rw [path_exists_isSome _ hx]
                rfl
      have hfileC : ∀ p fm fs fr, p ≠ [] → lookupN sn p = some (.file fm fs fr) →
          fr = true ∧ lookupN tf p = some (.file fm fs true) := by
        intro p fm fs fr hne hsp
        have hmemL : p ∈ srcItems (some sn) := by
          show p ∈ (walkPreN sn).map (fun x => x.1)
          exact List.mem_map.mpr ⟨(p, Node.file fm fs fr),
            (walkPreN_mem sn hwsn p (Node.file fm fs fr)).mpr ⟨hne, hsp⟩, rfl⟩
        exact (CR.2.2.2.2.2 p hmemL).1 fm fs fr hsp
      have hdirC : ∀ p, p ≠ [] → path_isdir (lookupN sn p) = true →
          path_exists (lookupN tf p) = true := by
        intro p hne hd
        cases hsp : lookupN sn p with
        | none => rw [hsp] at hd; exact absurd hd (by simp [path_isdir])
        | some sd =>
            cases sd with
            | file fm fs fr => rw [hsp] at hd; exact absurd hd (by simp [path_isdir])
            | dir dm dsz dcs =>
                have hmemL : p ∈ srcItems (some sn) := by
                  show p ∈ (walkPreN sn).map (fun x => x.1)
                  exact List.mem_map.mpr ⟨(p, Node.dir dm dsz dcs),
                    (walkPreN_mem sn hwsn p (Node.dir dm dsz dcs)).mpr ⟨hne, hsp⟩, rfl⟩
                exact (CR.2.2.2.2.2 p hmemL).2 hd
      exact ⟨tf, rfl, CR.1, hextf, hiso, hfileC, hdirC⟩

theorem folder_synchronization_noerr_master (src dst dst2 : Option Node)
    (msgs : List Outcome)
    (hwsrc : wfP src = true) (hwdst : wfP dst = true)
    (hsd : path_isdir src = true)
    (hmmh : ∀ p fm fs fr, lookupP src p = some (.file fm fs fr) →
      path_isdir (lookupP dst p) = false)
    (hrun : folder_synchronization src dst = .ok (dst2, msgs))
    (herr : ∀ o ∈ msgs, o.isError = false) :
    ∃ sn tf, src = some sn ∧ dst2 = some tf ∧ wfN sn = true ∧ wfN tf = true ∧
      path_exists (some tf) = true ∧
      (∀ p, p ≠ [] → (lookupN tf p).isSome = (lookupN sn p).isSome) ∧
      (∀ p fm fs fr, p ≠ [] → lookupN sn p = some (.file fm fs fr) →
        fr = true ∧ lookupN tf p = some (.file fm fs true)) ∧
      (∀ p, p ≠ [] → path_isdir (lookupN sn p) = true →
        path_exists (lookupN tf p) = true) := by
  cases src with
  | none => exact absurd hsd (by simp [path_isdir])
  | some sn =>
  cases sn with
  | file m s r => exact absurd hsd (by simp [path_isdir])
  | dir sm ss scs =>
  cases dst with
  | none =>
      have hh : folder_synchronization (some (Node.dir sm ss scs)) none =
          runPass (some (Node.dir sm ss scs)) (.dir 0 0 [])
            [Outcome.infoCreatedDest] := rfl
      rw [hh] at hrun
      have hmmr : ∀ p fm fs fr,
          lookupN (Node.dir sm ss scs) p = some (.file fm fs fr) →
          path_isdir (lookupN (Node.dir 0 0 []) p) = false := by
        intro p fm fs fr hsf
        cases p with
        | nil =>
            rw [lookupN_nil] at hsf
            injection hsf with h2
            cases h2
        | cons x xs => rfl
      obtain ⟨tf, hdst2, rest⟩ := runPass_noerr_master (Node.dir sm ss scs)
        (.dir 0 0 []) [Outcome.infoCreatedDest] dst2 msgs hwsrc rfl rfl
        hmmr hrun herr
      exact ⟨Node.dir sm ss scs, tf, rfl, hdst2, hwsrc, rest⟩
  | some root =>
      have h0 : folder_synchronization (some (Node.dir sm ss scs)) (some root) =
          (if path_exists (some root) = true then
            runPass (some (Node.dir sm ss scs)) root []
          else Except.ok (some root,
            [Outcome.errorCreateDest "FileExistsError"])) := rfl
      rw [h0] at hrun
      cases hre : path_exists (some root) with
      | false =>
          rw [if_neg (by rw [hre]; simp)] at hrun
          injection hrun with hrun
          injection hrun with h1 h2
          exfalso
          have hbad := herr (Outcome.errorCreateDest "FileExistsError")
            (by rw [← h2]; exact List.mem_cons_self _ _)
          exact absurd hbad (by simp [Outcome.isError])
      | true =>
          rw [if_pos hre] at hrun
          obtain ⟨tf, hdst2, rest⟩ := runPass_noerr_master (Node.dir sm ss scs)
            root [] dst2 msgs hwsrc hwdst hre
            (fun p fm fs fr hsf => hmmh p fm fs fr hsf) hrun herr
          exact ⟨Node.dir sm ss scs, tf, rfl, hdst2, hwsrc, rest⟩

theorem creationFold_noop (src : Option Node) : ∀ (L : List RPath) (t : Node),
    (∀ p ∈ L, create_step src t p = .ok (t, [])) →
    creationFold src t L = .ok (t, [])
  | [], t, h => rfl
  | p :: rest, t, h => by
      have h1 := h p (List.mem_cons_self p rest)
      have h2 := creationFold_noop src rest t
        (fun q hq => h q (List.mem_cons_of_mem p hq))
      show (create_step src t p >>= fun s =>
          creationFold src s.1 rest >>= fun r => pure (r.1, s.2 ++ r.2)) =
        .ok (t, [])
      rw [h1, except_bind_ok]
      show (creationFold src t rest >>= fun r =>
          pure (r.1, ([] : List Outcome) ++ r.2)) = .ok (t, [])
      rw [h2, except_bind_ok]
      rfl

/-- C1 (amended): for a well-formed source rooted at an existing directory
and a well-formed destination, if no source file path is shadowed by a
destination directory at the same relative path, then after a pass of
`folder_synchronization` that reports no error outcome, every non-root
relative path exists under the new destination exactly when it exists under
the source, and the destination counterpart of every source file is a
statable file carrying the source's mtime and size. -/
theorem sync_convergence (src dst dst2 : Option Node) (msgs : List Outcome)
    (hwsrc : wfP src = true) (hwdst : wfP dst = true)
    (hsd : path_isdir src = true)
    (hmmc : ∀ p fm fs fr, lookupP src p = some (.file fm fs fr) →
      path_isdir (lookupP dst p) = false)
    (hrun : folder_synchronization src dst = .ok (dst2, msgs))
    (herr : ∀ o ∈ msgs, o.isError = false) :
    ∀ p, p ≠ [] →
      (lookupP dst2 p).isSome = (lookupP src p).isSome ∧
      ∀ fm fs fr, lookupP src p = some (.file fm fs fr) →
        lookupP dst2 p = some (.file fm fs true) := by
  obtain ⟨sn, tf, hsrc, hdst2, hwsn, hwtf, hextf, hiso, hfileC, hdirC⟩ :=
    folder_synchronization_noerr_master src dst dst2 msgs hwsrc hwdst hsd
      hmmc hrun herr
  subst hsrc
  subst hdst2
  intro p hne
  exact ⟨hiso p hne, fun fm fs fr hsf => (hfileC p fm fs fr hne hsf).2⟩

/-- Witness for `sync_convergence`: source `{a: file(mtime 5, size 7)}`
over the initially empty destination directory; after the pass the
destination holds `a` with the source's attributes. -/
theorem sync_convergence_witness :
    lookupP (some (Node.dir 1 2 [("a", Node.file 5 7 true)])) ["a"] =
      some (Node.file 5 7 true) :=
  ((sync_convergence (some (Node.dir 0 0 [("a", Node.file 5 7 true)]))
      (some (Node.dir 1 2 []))
      (some (Node.dir 1 2 [("a", Node.file 5 7 true)]))
      [Outcome.infoCopied ["a"]]
      rfl rfl rfl
      (fun p fm fs fr h => by
        cases p with
        | nil =>
            have h2 : some (Node.dir 0 0 [("a", Node.file 5 7 true)]) =
                some (Node.file fm fs fr) := h
            injection h2 with h3
            cases h3
        | cons x xs => rfl)
      rfl
      (by decide)
      ["a"] (by simp)).2 5 7 true rfl)

/-- C7 (amended): under the same conditions as the convergence theorem
(existing directory source, no source-file/destination-directory kind
mismatch, first pass free of error outcomes), a second
`folder_synchronization` pass run on the resulting destination state
performs no action: it succeeds, leaves the destination unchanged, and
produces an empty outcome sequence. -/
theorem sync_idempotent (src dst dst2 : Option Node) (msgs : List Outcome)
    (hwsrc : wfP src = true) (hwdst : wfP dst = true)
    (hsd : path_isdir src = true)
    (hmmc2 : ∀ p fm fs fr, lookupP src p = some (.file fm fs fr) →
      path_isdir (lookupP dst p) = false)
    (hrun : folder_synchronization src dst = .ok (dst2, msgs))
    (herr : ∀ o ∈ msgs, o.isError = false) :
    folder_synchronization src dst2 = .ok (dst2, []) := by
  obtain ⟨sn, tf, hsrc, hdst2, hwsn, hwtf, hextf, hiso, hfileC, hdirC⟩ :=
    folder_synchronization_noerr_master src dst dst2 msgs hwsrc hwdst hsd
      hmmc2 hrun herr
  subst hsrc
  subst hdst2
  have hse : path_exists (some sn) = true := path_exists_of_isdir _ hsd
  have hrem2 : items_to_remove (some sn) tf = [] := by
    rw [List.eq_nil_iff_forall_not_mem]
    intro q hq
    obtain ⟨hne, hsome, hnex⟩ := (items_to_remove_mem (some sn) tf hwtf q).mp hq
    rw [hiso q hne] at hsome
    obtain ⟨sd, hsd2⟩ := Option.isSome_iff_exists.mp hsome
    cases sd with
    | dir a b c =>
        have hx : path_exists (lookupP (some sn) q) = true := by
          show path_exists (lookupN sn q) = true
          rw [hsd2]
          rfl
        rw [hx] at hnex
        exact absurd hnex (by simp)
    | file fm fs fr =>
        have hfr := (hfileC q fm fs fr hne hsd2).1
        have hx : path_exists (lookupP (some sn) q) = true := by
          show path_exists (lookupN sn q) = true
          rw [hsd2, hfr]
          rfl
        rw [hx] at hnex
        exact absurd hnex (by simp)
  have hsteps : ∀ p ∈ srcItems (some sn),
      create_step (some sn) tf p = Except.ok (tf, []) := by
    intro p hp
    have hp2 : p ∈ (walkPreN sn).map (fun x => x.1) := hp
    obtain ⟨⟨q, nd⟩, hqnd, hq⟩ := List.mem_map.mp hp2
    obtain ⟨hne, hl⟩ := (walkPreN_mem sn hwsn q nd).mp hqnd
    have hq2 : q = p := hq
    subst hq2
    have hsc : same_file_check (lookupP (some sn) q) (lookupN tf q) =
        Except.ok false := by
      cases nd with
      | dir dm dsz dcs =>
          have hex := hdirC q hne (by rw [hl]; rfl)
          show same_file_check (lookupN sn q) (lookupN tf q) = Except.ok false
          unfold same_file_check
          rw [if_neg (by rw [hex]; simp), if_neg (by rw [hl]; simp [path_isdir])]
      | file fm fs fr =>
          obtain ⟨hfr, hval⟩ := hfileC q fm fs fr hne hl
          subst hfr
          show same_file_check (lookupN sn q) (lookupN tf q) = Except.ok false
          rw [hl, hval]
          simp [same_file_check, path_exists, path_isdir, getmtime, getsize,
            except_bind_ok, except_pure]
    unfold create_step
    rw [hsc, except_bind_ok, if_neg (by simp)]
    rfl
  have h0 : folder_synchronization (some sn) (some tf) =
      (if (!path_exists (some sn)) = true then
        Except.ok (some tf, [Outcome.errorSourceMissing])
      else if path_exists (some tf) = true then runPass (some sn) tf []
      else Except.ok (some tf, [Outcome.errorCreateDest "FileExistsError"])) := rfl
  rw [h0, if_neg (by rw [hse]; simp), if_pos hextf]
  have hh : runPass (some sn) tf [] =
      (creationFold (some sn) (runRemovals tf (items_to_remove (some sn) tf)).1
          (srcItems (some sn)) >>= fun cr =>
        pure (some cr.1,
          ([] : List Outcome) ++ (runRemovals tf (items_to_remove (some sn) tf)).2
            ++ cr.2)) := rfl
  rw [hh, hrem2]
  show (creationFold (some sn) tf (srcItems (some sn)) >>= fun cr =>
      pure (some cr.1, ([] : List Outcome) ++ ([] : List Outcome) ++ cr.2)) =
    Except.ok (some tf, [])
  rw [creationFold_noop (some sn) (srcItems (some sn)) tf hsteps, except_bind_ok]
  rfl

/-- Witness for `sync_idempotent`: after copying `b` into an initially
empty destination, a second pass returns the destination unchanged with an
empty outcome list. -/
theorem sync_idempotent_witness :
    folder_synchronization (some (Node.dir 0 0 [("b", Node.file 3 4 true)]))
        (some (Node.dir 1 2 [("b", Node.file 3 4 true)])) =
      Except.ok (some (Node.dir 1 2 [("b", Node.file 3 4 true)]), []) :=
  sync_idempotent (some (Node.dir 0 0 [("b", Node.file 3 4 true)]))
    (some (Node.dir 1 2 []))
    (some (Node.dir 1 2 [("b", Node.file 3 4 true)]))
    [Outcome.infoCopied ["b"]]
    rfl rfl rfl
    (fun p fm fs fr h => by
      cases p with
      | nil =>
          have h2 : some (Node.dir 0 0 [("b", Node.file 3 4 true)]) =
              some (Node.file fm fs fr) := h
          injection h2 with h3
          cases h3
      | cons x xs => rfl)
    rfl
    (by decide)
